import Mathlib

/-!
# Verification of pixel power/pixelstats HAL components

A shallow embedding, in Lean 4, of the components of the
`hardware/google/pixel` repository that the specification's testable
properties talk about:

* `FrameBuckets` (libperfmgr `HintManager.h`): jank-frame histogram value type.
* `SessionRecords` (`power-libperfmgr/aidl/SessionRecords.cpp`): per-session
  ring buffer of reported work durations with jank / FPS statistics.
* `SupportManager` (`SupportManager.cpp`): AIDL-version-gated capability
  predicates.
* `ChannelManager` / `ChannelGroup` (`ChannelManager.cpp`,
  `ChannelGroup.cpp`): the (tgid,uid) → channel directory and its group
  placement logic.
* `SysfsCollector::collect` (`pixelstats/SysfsCollector.cpp`): the 5-minute
  wake-tick cadence counters.
* `BatteryEEPROMReporter::checkAndReport` (`pixelstats/BatteryEEPROMReporter.cpp`):
  EEPROM history record decoding, sentinel skipping and the monthly throttle
  watermark.
* `BatteryFGReporter::reportFGEvent`: the event-index guard.

Machine integers of the C++ source (`int32_t`, `int64_t`, `uint64_t`, ...)
are modelled as `Int`/`Nat`; C++ integer division and modulo truncate toward
zero, which is `Int.tdiv`/`Int.tmod`.  The two `double` constants involved in
comparisons (`kJankCheckTimeFactor`, the `1000000.0 / fps` threshold) are
modelled as exact rationals via integer cross-multiplication; for the values
these claims use (factor `1.5`, integer `fps`, microsecond-scale operands far
below `2^52`) the binary `double` arithmetic of the source is exact, so the
models agree with the source bit for bit (see the comments at each site).
-/

namespace PixelHal

/-! ## FrameBuckets (libperfmgr/include/perfmgr/HintManager.h) -/

/-- `struct FrameBuckets`: six `int64_t` counters. -/
structure FrameBuckets where
  totalNumOfFrames : Int := 0
  numOfFrames17to25ms : Int := 0
  numOfFrames25to34ms : Int := 0
  numOfFrames34to67ms : Int := 0
  numOfFrames67to100ms : Int := 0
  numOfFramesOver100ms : Int := 0
deriving DecidableEq, Repr

/-- Rendering of the `double` value `q / 100.0` by `std::stringstream`'s
default `operator<<` (6 significant digits, trailing zeros dropped).  Here
`q = singleBucketFrames * 10000 / totalFrames`; for the realistic ranges
(`0 ≤ q ≤ 10000`, and generally `|q| < 10^6`) the quotient `q / 100.0` has at
most 6 significant decimal digits and is recovered exactly by the stream, so
the decimal rendering below is exact. -/
def fmtHundredths (q : Int) : String :=
  let sign := if q < 0 then "-" else ""
  let n := q.natAbs
  let ip := n / 100
  let fp := n % 100
  if fp = 0 then sign ++ toString ip
  else if fp % 10 = 0 then sign ++ toString ip ++ "." ++ toString (fp / 10)
  else sign ++ toString ip ++ "." ++ (if fp < 10 then "0" else "") ++ toString fp

/-- `FrameBuckets::appendSingleBucketStr`. -/
def appendSingleBucketStr (singleBucketFrames totalFrames : Int) : String :=
  "-" ++ fmtHundredths ((singleBucketFrames * 10000).tdiv totalFrames) ++ "%" ++
    (if singleBucketFrames > 0 then "(" ++ toString singleBucketFrames ++ ")" else "")

/-- `FrameBuckets::toString`. -/
def FrameBuckets.render (b : FrameBuckets) : String :=
  if b.totalNumOfFrames ≤ 0 then
    "JankFramesInBuckets: " ++ "0%-0%-0%-0%-0%-0"
  else
    "JankFramesInBuckets: " ++
      fmtHundredths ((b.numOfFrames17to25ms * 10000).tdiv b.totalNumOfFrames) ++ "%" ++
      (if b.numOfFrames17to25ms > 0 then "(" ++ toString b.numOfFrames17to25ms ++ ")" else "") ++
      appendSingleBucketStr b.numOfFrames25to34ms b.totalNumOfFrames ++
      appendSingleBucketStr b.numOfFrames34to67ms b.totalNumOfFrames ++
      appendSingleBucketStr b.numOfFrames67to100ms b.totalNumOfFrames ++
      appendSingleBucketStr b.numOfFramesOver100ms b.totalNumOfFrames ++
      "-" ++ toString b.totalNumOfFrames

/-- `FrameBuckets::addUpNewFrames`. -/
def FrameBuckets.addUpNewFrames (b newFrames : FrameBuckets) : FrameBuckets where
  totalNumOfFrames := b.totalNumOfFrames + newFrames.totalNumOfFrames
  numOfFrames17to25ms := b.numOfFrames17to25ms + newFrames.numOfFrames17to25ms
  numOfFrames25to34ms := b.numOfFrames25to34ms + newFrames.numOfFrames25to34ms
  numOfFrames34to67ms := b.numOfFrames34to67ms + newFrames.numOfFrames34to67ms
  numOfFrames67to100ms := b.numOfFrames67to100ms + newFrames.numOfFrames67to100ms
  numOfFramesOver100ms := b.numOfFramesOver100ms + newFrames.numOfFramesOver100ms

/-! ## SessionRecords (power-libperfmgr/aidl/SessionRecords.cpp) -/

/-- `aidl::android::hardware::power::WorkDuration` (only the two fields the
session-records logic reads). -/
structure WorkDuration where
  timeStampNanos : Int := 0
  durationNanos : Int := 0
deriving DecidableEq, Repr

/-- `SessionRecords::CycleRecord`. -/
structure CycleRecord where
  startIntervalUs : Int := 0
  totalDurationUs : Int := 0
  isMissedCycle : Bool := false
  isFPSJitter : Bool := false
deriving DecidableEq, Repr

/-- `static constexpr int32_t kTotalFramesForFPSCheck = 3`. -/
def kTotalFramesForFPSCheck : Int := 3

/-- The state of a `SessionRecords` object.  `kJankCheckTimeFactor` is a
`double` in the source; the sessions under test construct it with `1.5`,
which is exactly representable, so it is carried as the exact rational
`jankFactorNum / jankFactorDen` (`3 / 2`). -/
structure SessionRecords where
  kMaxNumOfRecords : Int
  jankFactorNum : Int
  jankFactorDen : Int
  mRecords : List CycleRecord
  mRecordsIndQueue : List Int
  mAvgDurationUs : Int := 0
  mLastStartTimeNs : Int := 0
  mLatestRecordIndex : Int := -1
  mNumOfMissedCycles : Int := 0
  mNumOfFrames : Int := 0
  mSumOfDurationsUs : Int := 0
  mLatestStartIntervalSumUs : Int := 0
  mNumOfFrameFPSJitters : Int := 0
  mAddedFramesForFPSCheck : Int := 0
deriving DecidableEq, Repr

/-- `SessionRecords::SessionRecords`: `mRecords.resize(maxNumOfRecords)`
value-initialises the ring. -/
def SessionRecords.init (maxNumOfRecords : Int) (jankFactorNum jankFactorDen : Int) :
    SessionRecords where
  kMaxNumOfRecords := maxNumOfRecords
  jankFactorNum := jankFactorNum
  jankFactorDen := jankFactorDen
  mRecords := List.replicate maxNumOfRecords.toNat {}
  mRecordsIndQueue := []

/-- Read `mRecords[i]` (`i` is a nonnegative `int32_t` index in the source). -/
def SessionRecords.recordAt (s : SessionRecords) (i : Int) : CycleRecord :=
  s.mRecords.getD i.toNat {}

/-- `SessionRecords::updateFrameBuckets`. -/
def updateFrameBuckets (frameDurationUs : Int) (isJankFrame : Bool)
    (framesInBuckets : FrameBuckets) : FrameBuckets :=
  let fb := { framesInBuckets with
              totalNumOfFrames := framesInBuckets.totalNumOfFrames + 1 }
  if !isJankFrame || frameDurationUs < 17000 then fb
  else if frameDurationUs < 25000 then
    { fb with numOfFrames17to25ms := fb.numOfFrames17to25ms + 1 }
  else if frameDurationUs < 34000 then
    { fb with numOfFrames25to34ms := fb.numOfFrames25to34ms + 1 }
  else if frameDurationUs < 67000 then
    { fb with numOfFrames34to67ms := fb.numOfFrames34to67ms + 1 }
  else if frameDurationUs < 100000 then
    { fb with numOfFrames67to100ms := fb.numOfFrames67to100ms + 1 }
  else
    { fb with numOfFramesOver100ms := fb.numOfFramesOver100ms + 1 }

/-- Pop elements from the back of a deque (represented front-first) while the
predicate holds. -/
def popBackWhile (p : α → Bool) (l : List α) : List α :=
  (l.reverse.dropWhile p).reverse

/-- The body of the `for (auto &duration : actualDurationsNs)` loop of
`SessionRecords::addReportedDurations`, processing one reported duration.

The FPS-jitter comparison
`startIntervalUs > (1.4 * mLatestStartIntervalSumUs / kTotalFramesForFPSCheck)`
is modelled with the exact rational `7/5` for the double literal `1.4`
(cross-multiplied: `15 * startIntervalUs > 7 * sum`); the binary double
nearest `1.4` differs from `7/5` by a relative `2^-53`, and no claim in this
development depends on that branch.  The jank comparison
`totalDurationUs > (targetDurationNs / 1000) * kJankCheckTimeFactor` is
cross-multiplied with the exact factor `jankFactorNum / jankFactorDen`
(`1.5 = 3/2` is an exact double, and `int * 1.5` is exact for the `int32`
range, so this matches the source's double arithmetic exactly). -/
def SessionRecords.addOneDuration (s : SessionRecords) (fb : FrameBuckets)
    (duration : WorkDuration) (targetDurationNs : Int) (computeFPSJitters : Bool) :
    SessionRecords × FrameBuckets :=
  let totalDurationUs := duration.durationNanos.tdiv 1000
  -- ring eviction when full
  let s :=
    if s.mNumOfFrames ≥ s.kMaxNumOfRecords then
      let indexOfRecordToRemove := (s.mLatestRecordIndex + 1).tmod s.kMaxNumOfRecords
      let removed := s.recordAt indexOfRecordToRemove
      { s with
        mSumOfDurationsUs := s.mSumOfDurationsUs - removed.totalDurationUs
        mNumOfMissedCycles := s.mNumOfMissedCycles - (if removed.isMissedCycle then 1 else 0)
        mNumOfFrameFPSJitters :=
          s.mNumOfFrameFPSJitters - (if removed.isFPSJitter then 1 else 0)
        mNumOfFrames := s.mNumOfFrames - 1
        mRecordsIndQueue :=
          if s.mRecordsIndQueue.head? = some indexOfRecordToRemove then
            s.mRecordsIndQueue.tail
          else s.mRecordsIndQueue }
    else s
  let mLatestRecordIndex := (s.mLatestRecordIndex + 1).tmod s.kMaxNumOfRecords
  -- start-delay tracking
  let startTimeNs := duration.timeStampNanos - duration.durationNanos
  let startIntervalUs :=
    if s.mNumOfFrames > 0 then (startTimeNs - s.mLastStartTimeNs).tdiv 1000 else 0
  -- FPS-jitter tracking
  let (fpsJitter, sumUs, added, jitters) :=
    if computeFPSJitters then
      if s.mAddedFramesForFPSCheck < kTotalFramesForFPSCheck then
        if startIntervalUs > 0 then
          (false, s.mLatestStartIntervalSumUs + startIntervalUs,
           s.mAddedFramesForFPSCheck + 1, s.mNumOfFrameFPSJitters)
        else
          (false, s.mLatestStartIntervalSumUs, s.mAddedFramesForFPSCheck,
           s.mNumOfFrameFPSJitters)
      else
        let jitter := 15 * startIntervalUs > 7 * s.mLatestStartIntervalSumUs
        let oldRecordIndex0 := mLatestRecordIndex - kTotalFramesForFPSCheck
        let oldRecordIndex :=
          if oldRecordIndex0 < 0 then oldRecordIndex0 + s.kMaxNumOfRecords
          else oldRecordIndex0
        (jitter,
         s.mLatestStartIntervalSumUs + startIntervalUs -
           (s.recordAt oldRecordIndex).startIntervalUs,
         s.mAddedFramesForFPSCheck,
         s.mNumOfFrameFPSJitters + (if jitter then 1 else 0))
    else
      (false, 0, 0, s.mNumOfFrameFPSJitters)
  let cycleMissed :=
    totalDurationUs * s.jankFactorDen > targetDurationNs.tdiv 1000 * s.jankFactorNum
  let newRecord : CycleRecord :=
    { startIntervalUs := startIntervalUs, totalDurationUs := totalDurationUs,
      isMissedCycle := cycleMissed, isFPSJitter := fpsJitter }
  let mRecords := s.mRecords.set mLatestRecordIndex.toNat newRecord
  let mNumOfFrames := s.mNumOfFrames + 1
  let fb := updateFrameBuckets totalDurationUs cycleMissed fb
  let q := popBackWhile
    (fun idx => (mRecords.getD idx.toNat {}).totalDurationUs ≤ totalDurationUs)
    s.mRecordsIndQueue
  let mSumOfDurationsUs := s.mSumOfDurationsUs + totalDurationUs
  ({ s with
     mRecords := mRecords
     mRecordsIndQueue := q ++ [mLatestRecordIndex]
     mLatestRecordIndex := mLatestRecordIndex
     mLastStartTimeNs := startTimeNs
     mNumOfFrames := mNumOfFrames
     mNumOfMissedCycles := s.mNumOfMissedCycles + (if cycleMissed then 1 else 0)
     mSumOfDurationsUs := mSumOfDurationsUs
     mAvgDurationUs := mSumOfDurationsUs.tdiv mNumOfFrames
     mLatestStartIntervalSumUs := sumUs
     mAddedFramesForFPSCheck := added
     mNumOfFrameFPSJitters := jitters }, fb)

/-- `SessionRecords::addReportedDurations`. -/
def SessionRecords.addReportedDurations (s : SessionRecords)
    (actualDurationsNs : List WorkDuration) (targetDurationNs : Int)
    (newFramesInBuckets : FrameBuckets) (computeFPSJitters : Bool := false) :
    SessionRecords × FrameBuckets :=
  actualDurationsNs.foldl
    (fun (acc : SessionRecords × FrameBuckets) d =>
      acc.1.addOneDuration acc.2 d targetDurationNs computeFPSJitters)
    (s, newFramesInBuckets)

/-- `SessionRecords::getMaxDuration`. -/
def SessionRecords.getMaxDuration (s : SessionRecords) : Option Int :=
  match s.mRecordsIndQueue.head? with
  | none => none
  | some front => some (s.recordAt front).totalDurationUs

/-- `SessionRecords::getAvgDuration`. -/
def SessionRecords.getAvgDuration (s : SessionRecords) : Option Int :=
  if s.mNumOfFrames ≤ 0 then none else some s.mAvgDurationUs

/-- `SessionRecords::getNumOfRecords`. -/
def SessionRecords.getNumOfRecords (s : SessionRecords) : Int :=
  s.mNumOfFrames

/-- `SessionRecords::getNumOfMissedCycles`. -/
def SessionRecords.getNumOfMissedCycles (s : SessionRecords) : Int :=
  s.mNumOfMissedCycles

/-- The record-interval test of `SessionRecords::isLowFrameRate`: the source
compares each `startIntervalUs` (an `int32_t`) against the double
`cycleDurationThresholdUs = 1000000.0 / fpsLowRateThreshold`; the comparison
(`startIntervalUs >= cycleDurationThresholdUs`) is modelled by exact
cross-multiplication.  For a positive integer threshold the double quotient
carries a relative error below `2^-52` while a non-tie integer comparison has
slack at least `1 / fpsLowRateThreshold > 2^-32`, and exact quotients are
exact doubles, so the model agrees with the source for every positive
`int32_t` threshold. -/
def geFpsThreshold (fpsLowRateThreshold x : Int) : Bool :=
  if fpsLowRateThreshold > 0 then x * fpsLowRateThreshold ≥ 1000000
  else if fpsLowRateThreshold = 0 then false  -- threshold is +inf, nothing reaches it
  else x * fpsLowRateThreshold ≤ 1000000

/-- The previous ring index, wrapping: `ind == 0 ? (kMaxNumOfRecords - 1) : (ind - 1)`. -/
def SessionRecords.prevInd (s : SessionRecords) (ind : Int) : Int :=
  if ind = 0 then s.kMaxNumOfRecords - 1 else ind - 1

/-- `SessionRecords::isLowFrameRate`: true when the last three records (by
ring position, wrapping) all have start intervals at or above the cycle
duration threshold; requires at least 3 records. -/
def SessionRecords.isLowFrameRate (s : SessionRecords) (fpsLowRateThreshold : Int) : Bool :=
  if s.mNumOfFrames ≥ 3 then
    let ind1 := s.mLatestRecordIndex
    let ind2 := s.prevInd ind1
    let ind3 := s.prevInd ind2
    geFpsThreshold fpsLowRateThreshold (s.recordAt ind1).startIntervalUs &&
      geFpsThreshold fpsLowRateThreshold (s.recordAt ind2).startIntervalUs &&
      geFpsThreshold fpsLowRateThreshold (s.recordAt ind3).startIntervalUs
  else false

/-- `SessionRecords::resetRecords`. -/
def SessionRecords.resetRecords (s : SessionRecords) : SessionRecords :=
  { s with
    mAvgDurationUs := 0
    mLastStartTimeNs := 0
    mLatestRecordIndex := -1
    mNumOfMissedCycles := 0
    mNumOfFrames := 0
    mSumOfDurationsUs := 0
    mRecordsIndQueue := [] }

/-- `SessionRecords::getLatestFPS`:
`return 1000000 * kTotalFramesForFPSCheck / mLatestStartIntervalSumUs;` —
an unguarded `int32_t` division. -/
def SessionRecords.getLatestFPS (s : SessionRecords) : Int :=
  (1000000 * kTotalFramesForFPSCheck).tdiv s.mLatestStartIntervalSumUs

/-- `SessionRecords::getNumOfFPSJitters`. -/
def SessionRecords.getNumOfFPSJitters (s : SessionRecords) : Int :=
  s.mNumOfFrameFPSJitters

end PixelHal

namespace PixelHal

/-! ## SessionRecords / FrameBuckets theorems -/

/-- The test fixture's `fakeWorkDurations(totalDurationsMs)`: time stamp 0,
duration `MS_TO_NS(d)`. -/
def fakeWorkDurations (fakedTotalDurationsMs : List Int) : List WorkDuration :=
  fakedTotalDurationsMs.map fun d => { timeStampNanos := 0, durationNanos := d * 1000 * 1000 }

/-- A `SessionRecords` as constructed by the test fixture:
`maxNumOfRecords = 5`, `jankCheckTimeFactor = 1.5 = 3/2`. -/
def sessionRecordsFixture : SessionRecords := SessionRecords.init 5 3 2

/-- State and buckets after the first batch `{3,4,3,2}` ms at 3 ms target. -/
def c1Stage1 : SessionRecords × FrameBuckets :=
  sessionRecordsFixture.addReportedDurations (fakeWorkDurations [3, 4, 3, 2])
    (3 * 1000 * 1000) {}

/-- State and buckets after the second batch `{2,1,2}` ms. -/
def c1Stage2 : SessionRecords × FrameBuckets :=
  (c1Stage1.1).addReportedDurations (fakeWorkDurations [2, 1, 2]) (3 * 1000 * 1000) c1Stage1.2

/-- State and buckets after the third batch `{10,2,9,8,4,5,7,6}` ms. -/
def c1Stage3 : SessionRecords × FrameBuckets :=
  (c1Stage2.1).addReportedDurations (fakeWorkDurations [10, 2, 9, 8, 4, 5, 7, 6])
    (3 * 1000 * 1000) c1Stage2.2

/-- C1: with `maxNumOfRecords = 5` and `jankCheckTimeFactor = 1.5`, feeding
duration batches `{3,4,3,2}` ms, then `{2,1,2}` ms, then
`{10,2,9,8,4,5,7,6}` ms against a 3 ms target yields, after each batch
respectively, `(getNumOfRecords, getMaxDuration, getAvgDuration,
getNumOfMissedCycles)` equal to `(4, 4000 µs, 3000 µs, 0)`, then
`(5, 3000 µs, 2000 µs, 0)`, then `(5, 8000 µs, 6000 µs, 4)`. -/
theorem sessionRecords_ring_eviction_scenario :
    c1Stage1.1.getNumOfRecords = 4 ∧
    c1Stage1.1.getMaxDuration = some 4000 ∧
    c1Stage1.1.getAvgDuration = some 3000 ∧
    c1Stage1.1.getNumOfMissedCycles = 0 ∧
    c1Stage2.1.getNumOfRecords = 5 ∧
    c1Stage2.1.getMaxDuration = some 3000 ∧
    c1Stage2.1.getAvgDuration = some 2000 ∧
    c1Stage2.1.getNumOfMissedCycles = 0 ∧
    c1Stage3.1.getNumOfRecords = 5 ∧
    c1Stage3.1.getMaxDuration = some 8000 ∧
    c1Stage3.1.getAvgDuration = some 6000 ∧
    c1Stage3.1.getNumOfMissedCycles = 4 := by
  decide

/-- C4 counterexample: `toString()` of a bucket with `totalNumOfFrames ≤ 0`
is `"JankFramesInBuckets: 0%-0%-0%-0%-0%-0"`, not the bare
`"0%-0%-0%-0%-0%-0"` the claim states. -/
theorem frameBuckets_zero_render_has_prefix :
    ({ totalNumOfFrames := 0 : FrameBuckets }).totalNumOfFrames ≤ 0 ∧
    ({ totalNumOfFrames := 0 : FrameBuckets }).render ≠ "0%-0%-0%-0%-0%-0" := by
  constructor
  · decide
  · decide

/-- C4 (amended): `addUpNewFrames` makes every one of the six counters the
field-wise sum of the two operands' counters, rendering the sum reflects
exactly the field-wise-summed bucket, and any bucket with
`totalNumOfFrames ≤ 0` renders as
`"JankFramesInBuckets: 0%-0%-0%-0%-0%-0"` (the all-zero-percent string
carries the `"JankFramesInBuckets: "` prefix that `toString` always
emits). -/
theorem frameBuckets_addUp_fieldwise_and_zero_render (a b c : FrameBuckets)
    (hc : c.totalNumOfFrames ≤ 0) :
    a.addUpNewFrames b =
      { totalNumOfFrames := a.totalNumOfFrames + b.totalNumOfFrames
        numOfFrames17to25ms := a.numOfFrames17to25ms + b.numOfFrames17to25ms
        numOfFrames25to34ms := a.numOfFrames25to34ms + b.numOfFrames25to34ms
        numOfFrames34to67ms := a.numOfFrames34to67ms + b.numOfFrames34to67ms
        numOfFrames67to100ms := a.numOfFrames67to100ms + b.numOfFrames67to100ms
        numOfFramesOver100ms := a.numOfFramesOver100ms + b.numOfFramesOver100ms } ∧
    (a.addUpNewFrames b).render =
      FrameBuckets.render
        { totalNumOfFrames := a.totalNumOfFrames + b.totalNumOfFrames
          numOfFrames17to25ms := a.numOfFrames17to25ms + b.numOfFrames17to25ms
          numOfFrames25to34ms := a.numOfFrames25to34ms + b.numOfFrames25to34ms
          numOfFrames34to67ms := a.numOfFrames34to67ms + b.numOfFrames34to67ms
          numOfFrames67to100ms := a.numOfFrames67to100ms + b.numOfFrames67to100ms
          numOfFramesOver100ms := a.numOfFramesOver100ms + b.numOfFramesOver100ms } ∧
    c.render = "JankFramesInBuckets: 0%-0%-0%-0%-0%-0" := by
  refine ⟨rfl, rfl, ?_⟩
  unfold FrameBuckets.render
  rw [if_pos hc]
  rfl

/-- C4 witness: the amended theorem applied at concrete buckets. -/
theorem frameBuckets_addUp_fieldwise_and_zero_render_wit :
    ({ totalNumOfFrames := 0 : FrameBuckets }).totalNumOfFrames ≤ 0 ∧
    ({ totalNumOfFrames := 8, numOfFrames17to25ms := 1 : FrameBuckets }).addUpNewFrames
        { totalNumOfFrames := 2, numOfFrames17to25ms := 1 } =
      { totalNumOfFrames := 10, numOfFrames17to25ms := 2 } ∧
    ({ totalNumOfFrames := 0 : FrameBuckets }).render =
      "JankFramesInBuckets: 0%-0%-0%-0%-0%-0" := by
  have h := frameBuckets_addUp_fieldwise_and_zero_render
    { totalNumOfFrames := 8, numOfFrames17to25ms := 1 }
    { totalNumOfFrames := 2, numOfFrames17to25ms := 1 }
    { totalNumOfFrames := 0 } (by decide)
  exact ⟨by decide, h.1, h.2.2⟩

/-- Processing one duration with `computeFPSJitters = false` resets the
rolling start-interval sum to zero (`mLatestStartIntervalSumUs = 0;` in the
`else` branch of the jitter tracking). -/
theorem addOneDuration_no_jitter_resets_sum (s : SessionRecords) (fb : FrameBuckets)
    (d : WorkDuration) (t : Int) :
    ((s.addOneDuration fb d t false).1).mLatestStartIntervalSumUs = 0 := rfl

/-- Folding `addOneDuration` over a nonempty batch with
`computeFPSJitters = false` leaves the rolling sum at zero. -/
theorem addReportedDurations_no_jitter_sum_aux (ds : List WorkDuration)
    (acc : SessionRecords × FrameBuckets) (t : Int) (hds : ds ≠ []) :
    (ds.foldl (fun (acc : SessionRecords × FrameBuckets) d =>
        acc.1.addOneDuration acc.2 d t false) acc).1.mLatestStartIntervalSumUs = 0 := by
  induction ds generalizing acc with
  | nil => exact absurd rfl hds
  | cons d rest ih =>
    cases rest with
    | nil => exact addOneDuration_no_jitter_resets_sum _ _ _ _
    | cons d2 rest2 => exact ih _ (by simp)

/-- C5: `getLatestFPS` is the unguarded division
`1000000 * kTotalFramesForFPSCheck / mLatestStartIntervalSumUs`, the
divisor is zero in the freshly constructed state, and it is zero again after
every `addReportedDurations` call made with `computeFPSJitters = false` on a
nonempty batch — so the division in `getLatestFPS` divides by zero in
reachable states. -/
theorem getLatestFPS_unguarded_divisor_zero_reachable :
    (∀ s : SessionRecords,
      s.getLatestFPS =
        (1000000 * kTotalFramesForFPSCheck).tdiv s.mLatestStartIntervalSumUs) ∧
    (SessionRecords.init 5 3 2).mLatestStartIntervalSumUs = 0 ∧
    (∀ (s : SessionRecords) (ds : List WorkDuration) (t : Int) (fb : FrameBuckets),
      ds ≠ [] →
      ((s.addReportedDurations ds t fb false).1).mLatestStartIntervalSumUs = 0) := by
  refine ⟨fun _ => rfl, rfl, fun s ds t fb hds => ?_⟩
  exact addReportedDurations_no_jitter_sum_aux ds (s, fb) t hds

/-- C5 witness: the reset clause applied to the concrete test scenario
(the `checkFPSJitters` test's step that drops back to
`getLatestFPS() == 0`). -/
theorem getLatestFPS_unguarded_divisor_zero_reachable_wit :
    fakeWorkDurations [8] ≠ [] ∧
    ((sessionRecordsFixture.addReportedDurations (fakeWorkDurations [8])
        (10 * 1000 * 1000) {} false).1).mLatestStartIntervalSumUs = 0 := by
  refine ⟨by decide, ?_⟩
  exact getLatestFPS_unguarded_divisor_zero_reachable.2.2
    sessionRecordsFixture (fakeWorkDurations [8]) (10 * 1000 * 1000) {} (by decide)

end PixelHal

namespace PixelHal

/-- C6: `isLowFrameRate(thresholdFps)` returns true for every state with at
least 3 records whose last 3 records (latest ring index and its two wrapped
predecessors) each have `startIntervalUs ≥ 1000000 / thresholdFps`
(cross-multiplied for a positive threshold), and returns false for every
state with fewer than 3 records regardless of the records' intervals. -/
theorem isLowFrameRate_last_three_slow (s : SessionRecords) (fps : Int)
    (hfps : 0 < fps) :
    (3 ≤ s.mNumOfFrames →
      1000000 ≤ (s.recordAt s.mLatestRecordIndex).startIntervalUs * fps →
      1000000 ≤ (s.recordAt (s.prevInd s.mLatestRecordIndex)).startIntervalUs * fps →
      1000000 ≤ (s.recordAt (s.prevInd (s.prevInd s.mLatestRecordIndex))).startIntervalUs * fps →
      s.isLowFrameRate fps = true) ∧
    (s.mNumOfFrames < 3 → s.isLowFrameRate fps = false) := by
  constructor
  · intro h3 h1 h2 h3'
    simp [SessionRecords.isLowFrameRate, geFpsThreshold, h3, hfps, h1, h2, h3']
  · intro hlt
    unfold SessionRecords.isLowFrameRate
    rw [if_neg (by omega)]

/-- C6 witness: the theorem applied to the state reached by the
`checkLowFrameRate` unit test right after the `{330,8},{430,9}` batch, where
the test asserts `isLowFrameRate(25)` is true, and to a 2-record state where
it is false. -/
theorem isLowFrameRate_last_three_slow_wit :
    (let s := ((sessionRecordsFixture.addReportedDurations
        ((([((0:Int),(8:Int)), (10,9), (20,8), (30,8), (130,8), (230,9), (330,8), (430,9)]).map
          (fun p => ({ timeStampNanos := p.1 * 1000 * 1000,
                       durationNanos := p.2 * 1000 * 1000 } : WorkDuration))))
        (10 * 1000 * 1000) {}).1)
     (3 ≤ s.mNumOfFrames) ∧
     1000000 ≤ (s.recordAt s.mLatestRecordIndex).startIntervalUs * 25 ∧
     s.isLowFrameRate 25 = true) ∧
    (let t := ((sessionRecordsFixture.addReportedDurations (fakeWorkDurations [3, 4])
        (3 * 1000 * 1000) {}).1)
     t.mNumOfFrames < 3 ∧ t.isLowFrameRate 25 = false) := by
  constructor
  · refine ⟨by decide, by decide, ?_⟩
    exact (isLowFrameRate_last_three_slow _ 25 (by decide)).1
      (by decide) (by decide) (by decide) (by decide)
  · refine ⟨by decide, ?_⟩
    exact (isLowFrameRate_last_three_slow _ 25 (by decide)).2 (by decide)

end PixelHal

namespace PixelHal

/-! ## SupportManager (power-libperfmgr SupportManager.cpp)

The five AIDL enums, their `k*EarliestVersion` tables and the `*Supported`
predicates.  The `ASSERT_CAPACITY` static assertions of the source guarantee
every enum value appears in its table, so each table is a total function and
the `it == map.end()` branch of the predicates is unreachable; the lookup is
modelled as returning `some` for every value.  `HintManager::GetInstance()`
state is abstracted as two predicates on hint-name strings
(`IsHintSupported`, `IsAdpfProfileSupported`), and `IPower::version` (a
compile-time constant of the generated AIDL stub) as an explicit `version`
parameter. -/

inductive Mode
  | DOUBLE_TAP_TO_WAKE | LOW_POWER | SUSTAINED_PERFORMANCE | FIXED_PERFORMANCE
  | VR | LAUNCH | EXPENSIVE_RENDERING | INTERACTIVE | DEVICE_IDLE
  | DISPLAY_INACTIVE | AUDIO_STREAMING_LOW_LATENCY | CAMERA_STREAMING_SECURE
  | CAMERA_STREAMING_LOW | CAMERA_STREAMING_MID | CAMERA_STREAMING_HIGH
  | GAME | GAME_LOADING | DISPLAY_CHANGE | AUTOMOTIVE_PROJECTION
deriving DecidableEq, Repr

inductive Boost
  | INTERACTION | DISPLAY_UPDATE_IMMINENT | ML_ACC | AUDIO_LAUNCH
  | CAMERA_LAUNCH | CAMERA_SHOT
deriving DecidableEq, Repr

inductive SessionHint
  | CPU_LOAD_UP | CPU_LOAD_DOWN | CPU_LOAD_RESET | CPU_LOAD_RESUME
  | POWER_EFFICIENCY | GPU_LOAD_UP | GPU_LOAD_DOWN | GPU_LOAD_RESET
  | CPU_LOAD_SPIKE | GPU_LOAD_SPIKE
deriving DecidableEq, Repr

inductive SessionMode
  | POWER_EFFICIENCY | GRAPHICS_PIPELINE | AUTO_CPU | AUTO_GPU
deriving DecidableEq, Repr

inductive SessionTag
  | OTHER | SURFACEFLINGER | HWUI | GAME | APP | SYSUI
deriving DecidableEq, Repr

/-- `toString(Mode)` of the generated AIDL enum (the enumerator's name). -/
def Mode.toStr : Mode → String
  | .DOUBLE_TAP_TO_WAKE => "DOUBLE_TAP_TO_WAKE"
  | .LOW_POWER => "LOW_POWER"
  | .SUSTAINED_PERFORMANCE => "SUSTAINED_PERFORMANCE"
  | .FIXED_PERFORMANCE => "FIXED_PERFORMANCE"
  | .VR => "VR"
  | .LAUNCH => "LAUNCH"
  | .EXPENSIVE_RENDERING => "EXPENSIVE_RENDERING"
  | .INTERACTIVE => "INTERACTIVE"
  | .DEVICE_IDLE => "DEVICE_IDLE"
  | .DISPLAY_INACTIVE => "DISPLAY_INACTIVE"
  | .AUDIO_STREAMING_LOW_LATENCY => "AUDIO_STREAMING_LOW_LATENCY"
  | .CAMERA_STREAMING_SECURE => "CAMERA_STREAMING_SECURE"
  | .CAMERA_STREAMING_LOW => "CAMERA_STREAMING_LOW"
  | .CAMERA_STREAMING_MID => "CAMERA_STREAMING_MID"
  | .CAMERA_STREAMING_HIGH => "CAMERA_STREAMING_HIGH"
  | .GAME => "GAME"
  | .GAME_LOADING => "GAME_LOADING"
  | .DISPLAY_CHANGE => "DISPLAY_CHANGE"
  | .AUTOMOTIVE_PROJECTION => "AUTOMOTIVE_PROJECTION"

/-- `toString(Boost)` of the generated AIDL enum. -/
def Boost.toStr : Boost → String
  | .INTERACTION => "INTERACTION"
  | .DISPLAY_UPDATE_IMMINENT => "DISPLAY_UPDATE_IMMINENT"
  | .ML_ACC => "ML_ACC"
  | .AUDIO_LAUNCH => "AUDIO_LAUNCH"
  | .CAMERA_LAUNCH => "CAMERA_LAUNCH"
  | .CAMERA_SHOT => "CAMERA_SHOT"

/-- `kModeEarliestVersionMap`. -/
def kModeEarliestVersion : Mode → Int
  | .DOUBLE_TAP_TO_WAKE => 1
  | .LOW_POWER => 1
  | .SUSTAINED_PERFORMANCE => 1
  | .FIXED_PERFORMANCE => 1
  | .VR => 1
  | .LAUNCH => 1
  | .EXPENSIVE_RENDERING => 1
  | .INTERACTIVE => 1
  | .DEVICE_IDLE => 1
  | .DISPLAY_INACTIVE => 1
  | .AUDIO_STREAMING_LOW_LATENCY => 1
  | .CAMERA_STREAMING_SECURE => 1
  | .CAMERA_STREAMING_LOW => 1
  | .CAMERA_STREAMING_MID => 1
  | .CAMERA_STREAMING_HIGH => 1
  | .GAME => 3
  | .GAME_LOADING => 3
  | .DISPLAY_CHANGE => 5
  | .AUTOMOTIVE_PROJECTION => 5

/-- `kBoostEarliestVersionMap`. -/
def kBoostEarliestVersion : Boost → Int
  | .INTERACTION => 1
  | .DISPLAY_UPDATE_IMMINENT => 1
  | .ML_ACC => 1
  | .AUDIO_LAUNCH => 1
  | .CAMERA_LAUNCH => 1
  | .CAMERA_SHOT => 1

/-- `kSessionHintEarliestVersionMap`. -/
def kSessionHintEarliestVersion : SessionHint → Int
  | .CPU_LOAD_UP => 4
  | .CPU_LOAD_DOWN => 4
  | .CPU_LOAD_RESET => 4
  | .CPU_LOAD_RESUME => 4
  | .POWER_EFFICIENCY => 4
  | .GPU_LOAD_UP => 5
  | .GPU_LOAD_DOWN => 5
  | .GPU_LOAD_RESET => 5
  | .CPU_LOAD_SPIKE => 6
  | .GPU_LOAD_SPIKE => 6

/-- `kSessionModeEarliestVersionMap`. -/
def kSessionModeEarliestVersion : SessionMode → Int
  | .POWER_EFFICIENCY => 5
  | .GRAPHICS_PIPELINE => 6
  | .AUTO_CPU => 6
  | .AUTO_GPU => 6

/-- `kSessionTagEarliestVersionMap`. -/
def kSessionTagEarliestVersion : SessionTag → Int
  | .OTHER => 5
  | .SURFACEFLINGER => 5
  | .HWUI => 5
  | .GAME => 5
  | .APP => 5
  | .SYSUI => 6

/-- The `HintManager::GetInstance()` configuration state the predicates
consult, abstracted to the two queries they make. -/
structure HintManagerConfig where
  isHintSupported : String → Bool
  isAdpfProfileSupported : String → Bool

/-- `SupportManager::modeSupported`. -/
def modeSupported (hm : HintManagerConfig) (version : Int) (type : Mode) : Bool :=
  if version < kModeEarliestVersion type then false
  else
    let supported := hm.isHintSupported type.toStr
    -- LOW_POWER handled inside PowerHAL specifically
    if type = Mode.LOW_POWER then true
    else if !supported && hm.isAdpfProfileSupported type.toStr then true
    else supported

/-- `SupportManager::boostSupported`. -/
def boostSupported (hm : HintManagerConfig) (version : Int) (type : Boost) : Bool :=
  if version < kBoostEarliestVersion type then false
  else
    let supported := hm.isHintSupported type.toStr
    if !supported && hm.isAdpfProfileSupported type.toStr then true
    else supported

/-- `SupportManager::sessionHintSupported`. -/
def sessionHintSupported (version : Int) (type : SessionHint) : Bool :=
  if version < kSessionHintEarliestVersion type then false
  else
    match type with
    | .POWER_EFFICIENCY => false
    | _ => true

/-- `SupportManager::sessionModeSupported`. -/
def sessionModeSupported (version : Int) (type : SessionMode) : Bool :=
  if version < kSessionModeEarliestVersion type then false
  else
    match type with
    | .POWER_EFFICIENCY => false
    | .GRAPHICS_PIPELINE => false
    | _ => true

/-- `SupportManager::sessionTagSupported`. -/
def sessionTagSupported (version : Int) (type : SessionTag) : Bool :=
  if version < kSessionTagEarliestVersion type then false
  else true

/-- C3: for every enum value of `Mode`, `Boost`, `SessionHint`,
`SessionMode` and `SessionTag` and every AIDL version, if the table-assigned
earliest version exceeds the version then the corresponding `SupportManager`
predicate returns false regardless of the `HintManager` configuration —
including `Mode::LOW_POWER`, whose always-true special case sits after the
version gate. -/
theorem supportManager_version_gate (hm : HintManagerConfig) (version : Int) :
    (∀ m : Mode, version < kModeEarliestVersion m →
      modeSupported hm version m = false) ∧
    (∀ b : Boost, version < kBoostEarliestVersion b →
      boostSupported hm version b = false) ∧
    (∀ h : SessionHint, version < kSessionHintEarliestVersion h →
      sessionHintSupported version h = false) ∧
    (∀ m : SessionMode, version < kSessionModeEarliestVersion m →
      sessionModeSupported version m = false) ∧
    (∀ t : SessionTag, version < kSessionTagEarliestVersion t →
      sessionTagSupported version t = false) := by
  refine ⟨fun m hv => ?_, fun b hv => ?_, fun h hv => ?_, fun m hv => ?_, fun t hv => ?_⟩
  · unfold modeSupported; rw [if_pos hv]
  · unfold boostSupported; rw [if_pos hv]
  · unfold sessionHintSupported; rw [if_pos hv]
  · unfold sessionModeSupported; rw [if_pos hv]
  · unfold sessionTagSupported; rw [if_pos hv]

/-- C3 witness: at version 2 with a configuration claiming everything is
supported, `Mode::GAME` (earliest version 3), `SessionHint::CPU_LOAD_UP`
(earliest 4), `SessionMode::POWER_EFFICIENCY` (earliest 5) and
`SessionTag::SYSUI` (earliest 6) are all reported unsupported, and
`Mode::LOW_POWER` is gated below version 1. -/
theorem supportManager_version_gate_wit :
    ((2 : Int) < kModeEarliestVersion Mode.GAME ∧
      modeSupported ⟨fun _ => true, fun _ => true⟩ 2 Mode.GAME = false) ∧
    ((2 : Int) < kSessionHintEarliestVersion SessionHint.CPU_LOAD_UP ∧
      sessionHintSupported 2 SessionHint.CPU_LOAD_UP = false) ∧
    ((2 : Int) < kSessionModeEarliestVersion SessionMode.POWER_EFFICIENCY ∧
      sessionModeSupported 2 SessionMode.POWER_EFFICIENCY = false) ∧
    ((2 : Int) < kSessionTagEarliestVersion SessionTag.SYSUI ∧
      sessionTagSupported 2 SessionTag.SYSUI = false) ∧
    ((0 : Int) < kModeEarliestVersion Mode.LOW_POWER ∧
      modeSupported ⟨fun _ => true, fun _ => true⟩ 0 Mode.LOW_POWER = false) := by
  refine ⟨⟨by decide, ?_⟩, ⟨by decide, ?_⟩, ⟨by decide, ?_⟩, ⟨by decide, ?_⟩,
    ⟨by decide, ?_⟩⟩
  · exact (supportManager_version_gate ⟨fun _ => true, fun _ => true⟩ 2).1
      Mode.GAME (by decide)
  · exact (supportManager_version_gate ⟨fun _ => true, fun _ => true⟩ 2).2.2.1
      SessionHint.CPU_LOAD_UP (by decide)
  · exact (supportManager_version_gate ⟨fun _ => true, fun _ => true⟩ 2).2.2.2.1
      SessionMode.POWER_EFFICIENCY (by decide)
  · exact (supportManager_version_gate ⟨fun _ => true, fun _ => true⟩ 2).2.2.2.2
      SessionTag.SYSUI (by decide)
  · exact (supportManager_version_gate ⟨fun _ => true, fun _ => true⟩ 0).1
      Mode.LOW_POWER (by decide)

end PixelHal

namespace PixelHal

/-! ## ChannelManager / ChannelGroup
(power-libperfmgr/aidl/ChannelManager.cpp, ChannelGroup.cpp)

The channel directory, modelled at the level the counting claims need: a
`SessionChannel` is represented by the identity `(tgid, uid)` it was created
for; a `ChannelGroup`'s `std::array<std::shared_ptr<SessionChannel>,
kMaxChannels> mChannels` becomes a 16-slot list of `Option` identities
together with the `mLiveChannels` counter; the manager's
`std::map<int32_t, ChannelGroupT> mChannelGroups` becomes an
id-sorted association list (sortedness is an invariant, matching the ordered
`std::map`, and makes `rbegin()` the last element), and the
`std::unordered_map<int64_t, int64_t> mChannelMap` an association list from
`(tgid, uid)` to the packed `ChannelMapValue` `(groupId, offset)`.
`LOG_ALWAYS_FATAL` / `std::map::at` on a missing key are modelled as `none`.
A constructed channel's `isValid()` (FMQ allocation success) is modelled as
true. -/

/-- `kMaxChannels = 16` (AdpfTypes.h). -/
def kMaxChannels : Nat := 16

/-- One `ChannelGroup`: the 16 channel slots (holding the owning identity)
and the `mLiveChannels` counter (an `int32_t` in the source). -/
structure ChannelGroupState where
  mChannels : List (Option (Int × Int))
  mLiveChannels : Int
deriving DecidableEq, Repr

/-- A freshly constructed `ChannelGroup` (all slots empty). -/
def ChannelGroupState.emptyGroup : ChannelGroupState where
  mChannels := List.replicate kMaxChannels none
  mLiveChannels := 0

/-- `ChannelGroup::getChannelCount`. -/
def ChannelGroupState.getChannelCount (g : ChannelGroupState) : Int :=
  g.mLiveChannels

/-- `ChannelGroup::removeChannel(slot)`: false if the slot is already empty,
else clear it and decrement the live count. -/
def ChannelGroupState.removeChannel (g : ChannelGroupState) (slot : Nat) :
    Bool × ChannelGroupState :=
  if (g.mChannels.getD slot none).isSome then
    (true, { mChannels := g.mChannels.set slot none,
             mLiveChannels := g.mLiveChannels - 1 })
  else (false, g)

/-- The `for (slot = 0; slot < kMaxChannels; ++slot)` scan of
`ChannelGroup::createChannel`: index of the first empty slot. -/
def firstEmptySlot : List (Option α) → Option Nat
  | [] => none
  | none :: _ => some 0
  | some _ :: rest => (firstEmptySlot rest).map (· + 1)

/-- `ChannelGroup::createChannel(tgid, uid)`: linear scan for the first empty
slot; `LOG_ALWAYS_FATAL` (here `none`) if the group is full. -/
def ChannelGroupState.createChannel (g : ChannelGroupState) (tgid uid : Int) :
    Option (ChannelGroupState × Nat) :=
  match firstEmptySlot g.mChannels with
  | none => none
  | some slot =>
      some ({ mChannels := g.mChannels.set slot (some (tgid, uid)),
              mLiveChannels := g.mLiveChannels + 1 }, slot)

/-- `ChannelGroup::getChannel(slot)`: `LOG_ALWAYS_FATAL` (here `none`) on a
dead slot. -/
def ChannelGroupState.getChannel (g : ChannelGroupState) (slot : Nat) :
    Option (Int × Int) :=
  g.mChannels.getD slot none

/-- `ChannelManager` state: the ordered group map and the identity map. -/
structure ChannelManagerState where
  mChannelGroups : List (Int × ChannelGroupState)
  mChannelMap : List ((Int × Int) × (Int × Nat))
deriving DecidableEq, Repr

/-- A freshly constructed `ChannelManager`. -/
def ChannelManagerState.empty : ChannelManagerState where
  mChannelGroups := []
  mChannelMap := []

/-- `mChannelGroups.find(groupId)` resolved to the group state. -/
def lookupGroup (groups : List (Int × ChannelGroupState)) (gid : Int) :
    Option ChannelGroupState :=
  (groups.find? (fun p => p.1 == gid)).map Prod.snd

/-- Write an updated group state back at its id. -/
def updateGroup (groups : List (Int × ChannelGroupState)) (gid : Int)
    (g : ChannelGroupState) : List (Int × ChannelGroupState) :=
  groups.map (fun p => if p.1 == gid then (p.1, g) else p)

/-- `ChannelManager::getOrCreateChannel(tgid, uid)`; returns the updated
state and the `(groupId, offset)` channel id. -/
def ChannelManagerState.getOrCreateChannel (s : ChannelManagerState)
    (tgid uid : Int) : Option (ChannelManagerState × (Int × Nat)) :=
  let key := (tgid, uid)
  match s.mChannelMap.find? (fun e => e.1 == key) with
  | some e => do
      -- existing channel: resolve through the group map
      let g ← lookupGroup s.mChannelGroups e.2.1
      let _ ← g.getChannel e.2.2
      pure (s, e.2)
  | none =>
      -- find the first group (ascending id) with room
      let found := s.mChannelGroups.find?
        (fun p => p.2.getChannelCount < (kMaxChannels : Int))
      let (groupId, groups1) :=
        match found with
        | some p => (p.1, s.mChannelGroups)
        | none =>
            -- no group was found, make a new one with id rbegin+1 (or 0)
            let gid :=
              match s.mChannelGroups.getLast? with
              | none => 0
              | some q => q.1 + 1
            (gid, s.mChannelGroups ++ [(gid, ChannelGroupState.emptyGroup)])
      match lookupGroup groups1 groupId with
      | none => none
      | some g =>
          match g.createChannel tgid uid with
          | none => none
          | some (g', slot) =>
              some ({ mChannelGroups := updateGroup groups1 groupId g',
                      mChannelMap := s.mChannelMap ++ [(key, (groupId, slot))] },
                    (groupId, slot))

/-- `ChannelManager::getChannelConfig(tgid, uid, config)`: resolves/creates
the channel and reports success (channel validity, an FMQ allocation
property, is modelled as always true). -/
def ChannelManagerState.getChannelConfig (s : ChannelManagerState)
    (tgid uid : Int) : Option (ChannelManagerState × Bool) :=
  (s.getOrCreateChannel tgid uid).map (fun r => (r.1, true))

/-- `ChannelManager::closeChannel(tgid, uid)`. -/
def ChannelManagerState.closeChannel (s : ChannelManagerState) (tgid uid : Int) :
    ChannelManagerState × Bool :=
  let key := (tgid, uid)
  match s.mChannelMap.find? (fun e => e.1 == key) with
  | none => (s, false)
  | some e =>
      match lookupGroup s.mChannelGroups e.2.1 with
      | none => (s, false)
      | some g =>
          match g.removeChannel e.2.2 with
          | (false, _) => (s, false)
          | (true, g') =>
              -- ensure the group is cleaned up if we remove the last channel
              let groups' :=
                if g'.getChannelCount = 0 then
                  s.mChannelGroups.eraseP (fun p => p.1 == e.2.1)
                else updateGroup s.mChannelGroups e.2.1 g'
              ({ mChannelGroups := groups',
                 mChannelMap := s.mChannelMap.eraseP (fun x => x.1 == key) },
               true)

/-- `ChannelManager::getGroupCount`. -/
def ChannelManagerState.getGroupCount (s : ChannelManagerState) : Int :=
  s.mChannelGroups.length

/-- `ChannelManager::getChannelCount`: sum of the groups' live counts. -/
def ChannelManagerState.getChannelCount (s : ChannelManagerState) : Int :=
  (s.mChannelGroups.map (fun p => p.2.getChannelCount)).sum

/-- One external call to the manager. -/
inductive CMOp
  | getConfig (tgid uid : Int)
  | closeCh (tgid uid : Int)
deriving DecidableEq, Repr

/-- One step of the manager; `none` models a `LOG_ALWAYS_FATAL` /
`std::map::at` abort inside the call. -/
def cmStep (s : ChannelManagerState) : CMOp → Option ChannelManagerState
  | .getConfig tgid uid => (s.getChannelConfig tgid uid).map Prod.fst
  | .closeCh tgid uid => some (s.closeChannel tgid uid).1

/-- Run a sequence of calls from a state. -/
def cmRun (s : ChannelManagerState) : List CMOp → Option ChannelManagerState
  | [] => some s
  | op :: ops => match cmStep s op with
    | none => none
    | some s' => cmRun s' ops

/-- Specification-side bookkeeping: the effect of one call on the set of
registered identities (`getConfig` registers an absent identity, `closeCh`
removes it). -/
def activeStep (acc : List (Int × Int)) : CMOp → List (Int × Int)
  | .getConfig t u => if (t, u) ∈ acc then acc else acc ++ [(t, u)]
  | .closeCh t u => acc.eraseP (fun x => x == (t, u))

/-- The identities registered and not yet closed after a call sequence. -/
def activeIds (ops : List CMOp) : List (Int × Int) :=
  ops.foldl activeStep []

end PixelHal

namespace PixelHal

/-! ### List lemmas supporting the channel-manager invariants -/

theorem getD_set_eq {β : Type} {l : List β} {i : Nat} (hi : i < l.length) (a d : β) :
    (l.set i a).getD i d = a := by
  induction l generalizing i with
  | nil => simp at hi
  | cons x xs ih =>
    cases i with
    | zero => simp
    | succ n => simpa using ih (by simpa using hi) 

theorem getD_set_ne {β : Type} {l : List β} {i j : Nat} (h : i ≠ j) (a d : β) :
    (l.set i a).getD j d = l.getD j d := by
  induction l generalizing i j with
  | nil => simp
  | cons x xs ih =>
    cases i with
    | zero =>
      cases j with
      | zero => exact absurd rfl h
      | succ m => simp
    | succ n =>
      cases j with
      | zero => simp
      | succ m => simpa using ih (show n ≠ m by omega)

theorem countP_isSome_set_none {α : Type} {l : List (Option α)} {i : Nat} {a : α}
    (h : l.getD i none = some a) :
    (l.set i none).countP (fun c => c.isSome) + 1 = l.countP (fun c => c.isSome) := by
  induction l generalizing i with
  | nil => simp at h
  | cons x xs ih =>
    cases i with
    | zero =>
      simp only [List.getD_cons_zero] at h
      simp [List.countP_cons, h]
    | succ n =>
      simp only [List.getD_cons_succ] at h
      have := ih h
      simp only [List.set_cons_succ, List.countP_cons]
      omega

theorem countP_isSome_set_some {α : Type} {l : List (Option α)} {i : Nat} (a : α)
    (hi : i < l.length) (h : l.getD i none = none) :
    (l.set i (some a)).countP (fun c => c.isSome) = l.countP (fun c => c.isSome) + 1 := by
  induction l generalizing i with
  | nil => simp at hi
  | cons x xs ih =>
    cases i with
    | zero =>
      simp only [List.getD_cons_zero] at h
      simp [List.countP_cons, h]
    | succ n =>
      simp only [List.getD_cons_succ] at h
      have := ih (by simpa using hi) h
      simp only [List.set_cons_succ, List.countP_cons]
      omega

theorem firstEmptySlot_spec {α : Type} {l : List (Option α)} {i : Nat}
    (h : firstEmptySlot l = some i) : i < l.length ∧ l.getD i none = none := by
  induction l generalizing i with
  | nil => simp [firstEmptySlot] at h
  | cons x xs ih =>
    cases x with
    | none =>
      simp only [firstEmptySlot] at h
      cases h
      simp
    | some v =>
      simp only [firstEmptySlot, Option.map_eq_some'] at h
      obtain ⟨j, hj, rfl⟩ := h
      have := ih hj
      constructor
      · simpa using this.1
      · simpa using this.2

theorem firstEmptySlot_none_all_isSome {α : Type} {l : List (Option α)}
    (h : firstEmptySlot l = none) : ∀ x ∈ l, x.isSome := by
  induction l with
  | nil => simp
  | cons x xs ih =>
    cases x with
    | none => simp [firstEmptySlot] at h
    | some v =>
      simp only [firstEmptySlot, Option.map_eq_none'] at h
      intro y hy
      rcases List.mem_cons.1 hy with rfl | hy'
      · rfl
      · exact ih h y hy'

theorem firstEmptySlot_exists_of_occ_lt {α : Type} {l : List (Option α)}
    (h : l.countP (fun c => c.isSome) < l.length) : ∃ i, firstEmptySlot l = some i := by
  cases hf : firstEmptySlot l with
  | some i => exact ⟨i, rfl⟩
  | none =>
    have hall := firstEmptySlot_none_all_isSome hf
    have : l.countP (fun c => c.isSome) = l.length := List.countP_eq_length.2 hall
    omega

end PixelHal

namespace PixelHal

/-- Number of occupied channel slots in a group. -/
def occCount (g : ChannelGroupState) : Nat :=
  g.mChannels.countP (fun c => c.isSome)

/-- Total number of occupied channel slots across all groups. -/
def occSum (groups : List (Int × ChannelGroupState)) : Nat :=
  (groups.map (fun p => occCount p.2)).sum

theorem find?_key_some {κ τ : Type} [BEq κ] [LawfulBEq κ] {l : List (κ × τ)} {k : κ}
    {e : κ × τ} (h : l.find? (fun p => p.1 == k) = some e) : e ∈ l ∧ e.1 = k := by
  have hm := List.mem_of_find?_eq_some h
  have hp := List.find?_some h
  exact ⟨hm, by simpa using hp⟩

theorem find?_key_none {κ τ : Type} [BEq κ] [LawfulBEq κ] {l : List (κ × τ)} {k : κ}
    (h : l.find? (fun p => p.1 == k) = none) : ∀ x ∈ l, x.1 ≠ k := by
  intro x hx
  have := List.find?_eq_none.1 h x hx
  simpa using this

theorem find?_key_eq_of_mem {κ τ : Type} [BEq κ] [LawfulBEq κ] {l : List (κ × τ)}
    {k : κ} {v : τ} (hnd : (l.map Prod.fst).Nodup) (hm : (k, v) ∈ l) :
    l.find? (fun p => p.1 == k) = some (k, v) := by
  induction l with
  | nil => simp at hm
  | cons x xs ih =>
    have hnd' : (xs.map Prod.fst).Nodup := (List.nodup_cons.1 (by simpa using hnd)).2
    have hx1 : x.1 ∉ xs.map Prod.fst := (List.nodup_cons.1 (by simpa using hnd)).1
    rcases List.mem_cons.1 hm with heq | hm'
    · rw [← heq]
      simp [List.find?]
    · have hne : (x.1 == k) = false := by
        apply beq_eq_false_iff_ne.2
        intro hc
        apply hx1
        rw [hc]
        exact List.mem_map_of_mem Prod.fst hm'
      rw [List.find?_cons_of_neg _ (by simp [hne])]
      exact ih hnd' hm'

theorem keys_eraseP {κ τ : Type} [BEq κ] (l : List (κ × τ)) (k : κ) :
    (l.eraseP (fun e => e.1 == k)).map Prod.fst =
      (l.map Prod.fst).eraseP (fun x => x == k) := by
  induction l with
  | nil => rfl
  | cons x xs ih =>
    by_cases hx : (x.1 == k) = true
    · simp [List.eraseP_cons, hx]
    · simp only [Bool.not_eq_true] at hx
      simp [List.eraseP_cons, hx, ih]

/-- `updateGroup` over a cons. -/
theorem updateGroup_cons (x : Int × ChannelGroupState) (xs : List (Int × ChannelGroupState))
    (gid : Int) (g : ChannelGroupState) :
    updateGroup (x :: xs) gid g =
      (if x.1 == gid then (x.1, g) else x) :: updateGroup xs gid g := rfl

theorem updateGroup_keys (groups : List (Int × ChannelGroupState)) (gid : Int)
    (g : ChannelGroupState) :
    (updateGroup groups gid g).map Prod.fst = groups.map Prod.fst := by
  induction groups with
  | nil => rfl
  | cons x xs ih =>
    rw [updateGroup_cons]
    by_cases hx : (x.1 == gid) = true <;> simp [hx, ih]

theorem updateGroup_of_forall_ne {groups : List (Int × ChannelGroupState)} {gid : Int}
    (g : ChannelGroupState) (h : ∀ p ∈ groups, p.1 ≠ gid) :
    updateGroup groups gid g = groups := by
  induction groups with
  | nil => rfl
  | cons x xs ih =>
    rw [updateGroup_cons]
    have hx : (x.1 == gid) = false := beq_eq_false_iff_ne.2 (h x (by simp))
    simp [hx, ih (fun p hp => h p (List.mem_cons_of_mem x hp))]

theorem mem_updateGroup {groups : List (Int × ChannelGroupState)} {gid : Int}
    {g : ChannelGroupState} {q : Int × ChannelGroupState}
    (hq : q ∈ updateGroup groups gid g) :
    ∃ p ∈ groups, q = if p.1 == gid then (p.1, g) else p := by
  obtain ⟨p, hp, hpq⟩ := List.mem_map.1 hq
  exact ⟨p, hp, hpq.symm⟩

theorem mem_updateGroup_self {groups : List (Int × ChannelGroupState)} {gid : Int}
    {g0 : ChannelGroupState} (hm : (gid, g0) ∈ groups) (g : ChannelGroupState) :
    (gid, g) ∈ updateGroup groups gid g := by
  refine List.mem_map.2 ⟨(gid, g0), hm, ?_⟩
  simp

theorem occSum_cons (x : Int × ChannelGroupState) (xs : List (Int × ChannelGroupState)) :
    occSum (x :: xs) = occCount x.2 + occSum xs := by
  simp [occSum]

theorem occSum_append (l₁ l₂ : List (Int × ChannelGroupState)) :
    occSum (l₁ ++ l₂) = occSum l₁ + occSum l₂ := by
  simp [occSum]

theorem occSum_updateGroup {groups : List (Int × ChannelGroupState)} {gid : Int}
    {g0 : ChannelGroupState} (g : ChannelGroupState)
    (hnd : (groups.map Prod.fst).Nodup) (hm : (gid, g0) ∈ groups) :
    occSum (updateGroup groups gid g) + occCount g0 = occSum groups + occCount g := by
  induction groups with
  | nil => simp at hm
  | cons x xs ih =>
    have hnd' : (xs.map Prod.fst).Nodup := (List.nodup_cons.1 (by simpa using hnd)).2
    have hx1 : x.1 ∉ xs.map Prod.fst := (List.nodup_cons.1 (by simpa using hnd)).1
    by_cases hxg : x.1 = gid
    · have hx : x = (gid, g0) := by
        rcases List.mem_cons.1 hm with h | h
        · exact h.symm
        · exact absurd (by rw [hxg]; exact List.mem_map_of_mem Prod.fst h) hx1
      have hrest : updateGroup xs gid g = xs := by
        apply updateGroup_of_forall_ne
        intro p hp hc
        exact hx1 (by rw [hxg, ← hc]; exact List.mem_map_of_mem Prod.fst hp)
      rw [updateGroup_cons, if_pos (by simp [hxg]), hrest, occSum_cons, occSum_cons, hx]
      show occCount g + occSum xs + occCount g0 = occCount g0 + occSum xs + occCount g
      omega
    · have hm' : (gid, g0) ∈ xs := by
        rcases List.mem_cons.1 hm with h | h
        · exact absurd (by rw [← h]) hxg
        · exact h
      have := ih hnd' hm'
      rw [updateGroup_cons, if_neg (by simp [hxg]), occSum_cons, occSum_cons]
      omega

theorem occSum_eraseP {groups : List (Int × ChannelGroupState)} {gid : Int}
    {g0 : ChannelGroupState} (hnd : (groups.map Prod.fst).Nodup)
    (hm : (gid, g0) ∈ groups) :
    occSum (groups.eraseP (fun p => p.1 == gid)) + occCount g0 = occSum groups := by
  induction groups with
  | nil => simp at hm
  | cons x xs ih =>
    have hnd' : (xs.map Prod.fst).Nodup := (List.nodup_cons.1 (by simpa using hnd)).2
    have hx1 : x.1 ∉ xs.map Prod.fst := (List.nodup_cons.1 (by simpa using hnd)).1
    by_cases hxg : x.1 = gid
    · have hx : x = (gid, g0) := by
        rcases List.mem_cons.1 hm with h | h
        · exact h.symm
        · exact absurd (by rw [hxg]; exact List.mem_map_of_mem Prod.fst h) hx1
      rw [List.eraseP_cons_of_pos (by simp [hxg]), hx, occSum_cons]
      show occSum xs + occCount g0 = occCount g0 + occSum xs
      omega
    · have hm' : (gid, g0) ∈ xs := by
        rcases List.mem_cons.1 hm with h | h
        · exact absurd (by rw [← h]) hxg
        · exact h
      have := ih hnd' hm'
      rw [List.eraseP_cons_of_neg (by simp [hxg]), occSum_cons, occSum_cons]
      omega

theorem sorted_le_getLast {l : List Int} (hp : l.Pairwise (· < ·)) {q : Int}
    (hl : l.getLast? = some q) : ∀ x ∈ l, x ≤ q := by
  induction l with
  | nil => simp at hl
  | cons a xs ih =>
    cases xs with
    | nil =>
      simp only [List.getLast?_singleton, Option.some.injEq] at hl
      intro x hx
      simp only [List.mem_singleton] at hx
      omega
    | cons b ys =>
      have hl' : (b :: ys).getLast? = some q := by
        rw [← hl, List.getLast?_cons_cons]
      have hp' := (List.pairwise_cons.1 hp).2
      have hab := (List.pairwise_cons.1 hp).1
      intro x hx
      rcases List.mem_cons.1 hx with rfl | hx'
      · have hbq : b ≤ q := ih hp' hl' b (by simp)
        have : x < b := hab b (by simp)
        omega
      · exact ih hp' hl' x hx'

theorem pairwise_lt_append_singleton {l : List Int} {q : Int}
    (hp : l.Pairwise (· < ·)) (hq : ∀ x ∈ l, x < q) :
    (l ++ [q]).Pairwise (· < ·) := by
  rw [List.pairwise_append]
  refine ⟨hp, List.pairwise_singleton _ _, ?_⟩
  intro a ha b hb
  rw [List.mem_singleton] at hb
  subst hb
  exact hq a ha

theorem find?_append_of_none {α : Type} {l₁ l₂ : List α} {p : α → Bool}
    (h : ∀ x ∈ l₁, ¬ p x) : (l₁ ++ l₂).find? p = l₂.find? p := by
  induction l₁ with
  | nil => rfl
  | cons x xs ih =>
    rw [List.cons_append, List.find?_cons_of_neg _ (h x (by simp))]
    exact ih fun y hy => h y (List.mem_cons_of_mem x hy)

end PixelHal

namespace PixelHal

theorem getD_some_lt_length {α : Type} {l : List (Option α)} {i : Nat} {a : α}
    (h : l.getD i none = some a) : i < l.length := by
  by_contra hc
  rw [List.getD_eq_default _ _ (by omega)] at h
  exact Option.noConfusion h

theorem countP_isSome_pos_of_getD {α : Type} {l : List (Option α)} {i : Nat} {a : α}
    (h : l.getD i none = some a) : 0 < l.countP (fun c => c.isSome) := by
  induction l generalizing i with
  | nil => simp at h
  | cons x xs ih =>
    cases i with
    | zero =>
      simp only [List.getD_cons_zero] at h
      simp [List.countP_cons, h]
    | succ n =>
      simp only [List.getD_cons_succ] at h
      have := ih h
      simp only [List.countP_cons]
      omega

theorem mem_keys_unique {κ τ : Type} {m : List (κ × τ)} {k : κ} {v1 v2 : τ}
    (hnd : (m.map Prod.fst).Nodup) (h1 : (k, v1) ∈ m) (h2 : (k, v2) ∈ m) : v1 = v2 := by
  induction m with
  | nil => simp at h1
  | cons x xs ih =>
    have hnd' : (xs.map Prod.fst).Nodup := (List.nodup_cons.1 (by simpa using hnd)).2
    have hx1 : x.1 ∉ xs.map Prod.fst := (List.nodup_cons.1 (by simpa using hnd)).1
    rcases List.mem_cons.1 h1 with hh1 | hh1 <;> rcases List.mem_cons.1 h2 with hh2 | hh2
    · rw [← hh1] at hh2; exact (Prod.mk.injEq _ _ _ _ ▸ hh2).2.symm
    · exfalso
      apply hx1
      have hxk : x.1 = k := by rw [← hh1]
      rw [hxk]
      simpa using List.mem_map_of_mem Prod.fst hh2
    · exfalso
      apply hx1
      have hxk : x.1 = k := by rw [← hh2]
      rw [hxk]
      simpa using List.mem_map_of_mem Prod.fst hh1
    · exact ih hnd' hh1 hh2

theorem not_mem_keys_eraseP {κ τ : Type} [BEq κ] [LawfulBEq κ] {m : List (κ × τ)} {k : κ}
    (hnd : (m.map Prod.fst).Nodup) :
    ∀ e ∈ m.eraseP (fun e => e.1 == k), e.1 ≠ k := by
  intro e he hek
  have hkeys : e.1 ∈ (m.eraseP (fun e => e.1 == k)).map Prod.fst :=
    List.mem_map_of_mem Prod.fst he
  rw [keys_eraseP, ← List.erase_eq_eraseP'] at hkeys
  rw [hek] at hkeys
  exact absurd ((hnd.mem_erase_iff).1 hkeys).1 (by simp)

theorem mem_updateGroup_of_ne {groups : List (Int × ChannelGroupState)} {gid k : Int}
    {v : ChannelGroupState} (g : ChannelGroupState) (hm : (k, v) ∈ groups)
    (hne : k ≠ gid) : (k, v) ∈ updateGroup groups gid g := by
  refine List.mem_map.2 ⟨(k, v), hm, ?_⟩
  simp [hne]

theorem sorted_keys_nodup {l : List Int} (hp : l.Pairwise (· < ·)) : l.Nodup :=
  hp.imp (fun h => LT.lt.ne h)

/-! ### The channel-manager invariant -/

/-- Well-formedness of one group: 16 slots, and `mLiveChannels` agrees with
the number of occupied slots. -/
def GroupWF (g : ChannelGroupState) : Prop :=
  g.mChannels.length = kMaxChannels ∧ g.mLiveChannels = (occCount g : Int)

/-- The manager invariant maintained by every call: groups well-formed, group
ids strictly sorted (the `std::map` order), identity keys unique, the
channel map and the group slots in bijection, and the total occupied-slot
count equal to the number of registered identities. -/
structure WF (s : ChannelManagerState) : Prop where
  groupsWF : ∀ p ∈ s.mChannelGroups, GroupWF p.2
  idsSorted : (s.mChannelGroups.map Prod.fst).Pairwise (· < ·)
  keysNodup : (s.mChannelMap.map Prod.fst).Nodup
  forwardInv : ∀ e ∈ s.mChannelMap, ∃ g, (e.2.1, g) ∈ s.mChannelGroups ∧
      g.mChannels.getD e.2.2 none = some e.1
  backwardInv : ∀ p ∈ s.mChannelGroups, ∀ off : Nat, ∀ id,
      p.2.mChannels.getD off none = some id → (id, (p.1, off)) ∈ s.mChannelMap
  countEq : occSum s.mChannelGroups = s.mChannelMap.length

theorem WF_empty : WF ChannelManagerState.empty := by
  constructor <;> simp [ChannelManagerState.empty, occSum]

end PixelHal

namespace PixelHal

theorem closeChannel_preserves {s : ChannelManagerState} (hWF : WF s) (t u : Int) :
    WF (s.closeChannel t u).1 ∧
    (s.closeChannel t u).1.mChannelMap.map Prod.fst =
      (s.mChannelMap.map Prod.fst).eraseP (fun x => x == (t, u)) := by
  have hgnodup : (s.mChannelGroups.map Prod.fst).Nodup := sorted_keys_nodup hWF.idsSorted
  cases hfind : s.mChannelMap.find? (fun e => e.1 == (t, u)) with
  | none =>
    simp only [ChannelManagerState.closeChannel, hfind]
    refine ⟨hWF, ?_⟩
    rw [List.eraseP_of_forall_not]
    intro x hx
    obtain ⟨e, he, rfl⟩ := List.mem_map.1 hx
    have := find?_key_none hfind e he
    simpa using this
  | some e =>
    obtain ⟨hem, hek⟩ := find?_key_some hfind
    obtain ⟨g, hgmem, hslot⟩ := hWF.forwardInv e hem
    have hlook : lookupGroup s.mChannelGroups e.2.1 = some g := by
      unfold lookupGroup
      rw [find?_key_eq_of_mem hgnodup hgmem]
      rfl
    have hoff : e.2.2 < g.mChannels.length := getD_some_lt_length hslot
    have hgwfg : GroupWF g := hWF.groupsWF _ hgmem
    have hmaplen : (s.mChannelMap.eraseP (fun x => x.1 == (t, u))).length =
        s.mChannelMap.length - 1 :=
      List.length_eraseP_of_mem hem (by simp [hek])
    have hmlen1 : 1 ≤ s.mChannelMap.length := List.length_pos.2 (List.ne_nil_of_mem hem)
    have hkeysgoal : (s.mChannelMap.eraseP (fun x => x.1 == (t, u))).map Prod.fst =
        (s.mChannelMap.map Prod.fst).eraseP (fun x => x == (t, u)) := keys_eraseP _ _
    simp only [ChannelManagerState.closeChannel, hfind, hlook,
      ChannelGroupState.removeChannel, hslot, Option.isSome_some, if_true]
    set g' : ChannelGroupState :=
      { mChannels := g.mChannels.set e.2.2 none,
        mLiveChannels := g.mLiveChannels - 1 } with hg'
    have hocc2 : occCount g' + 1 = occCount g := countP_isSome_set_none hslot
    have hlive : g.mLiveChannels = (occCount g : Int) := hgwfg.2
    have hg'len : g'.mChannels.length = kMaxChannels := by
      rw [hg']
      simpa [List.length_set] using hgwfg.1
    have hg'live : g'.mLiveChannels = (occCount g' : Int) := by
      rw [hg']
      show g.mLiveChannels - 1 = (occCount g' : Int)
      omega
    -- the slot-to-key direction of the old map, specialised to the erased key
    have hkeyslot : ∀ off : Nat, g.mChannels.getD off none = some e.1 → off = e.2.2 := by
      intro off hoffslot
      have h1 := hWF.backwardInv (e.2.1, g) hgmem off e.1 hoffslot
      have h2 : (e.1, e.2) ∈ s.mChannelMap := by
        rw [Prod.mk.eta]
        exact hem
      have := mem_keys_unique hWF.keysNodup h1 h2
      exact congrArg Prod.snd this
    by_cases hzero : g'.getChannelCount = 0
    · rw [if_pos hzero]
      have hoccg0 : occCount g' = 0 := by
        simp only [ChannelGroupState.getChannelCount] at hzero
        omega
      refine ⟨?_, hkeysgoal⟩
      constructor
      · intro p hp
        exact hWF.groupsWF p (List.mem_of_mem_eraseP hp)
      · rw [keys_eraseP]
        exact List.Pairwise.sublist (List.eraseP_sublist _) hWF.idsSorted
      · rw [hkeysgoal]
        exact List.Nodup.sublist (List.eraseP_sublist _) hWF.keysNodup
      · -- forward
        intro e' he'
        have he'm := List.mem_of_mem_eraseP he'
        have he'k : e'.1 ≠ (t, u) := not_mem_keys_eraseP hWF.keysNodup e' he'
        obtain ⟨g2, hg2mem, hg2slot⟩ := hWF.forwardInv e' he'm
        by_cases hsame : e'.2.1 = e.2.1
        · exfalso
          have hg2 : g2 = g :=
            mem_keys_unique hgnodup (hsame ▸ hg2mem) hgmem
          rw [hg2] at hg2slot
          by_cases hslot' : e'.2.2 = e.2.2
          · rw [hslot', hslot] at hg2slot
            have : e'.1 = e.1 := by
              have := hg2slot.symm
              exact (Option.some.injEq _ _ ▸ this)
            exact he'k (by rw [this, hek])
          · have hset : (g.mChannels.set e.2.2 none).getD e'.2.2 none = some e'.1 := by
              rw [getD_set_ne (fun hc => hslot' hc.symm)]
              exact hg2slot
            have hpos := countP_isSome_pos_of_getD hset
            have : 0 < occCount g' := hpos
            omega
        · refine ⟨g2, ?_, hg2slot⟩
          exact (List.mem_eraseP_of_neg (by simp [hsame])).2 hg2mem
      · -- backward
        intro p hp off id hpslot
        have hpm := List.mem_of_mem_eraseP hp
        have hpk : p.1 ≠ e.2.1 := not_mem_keys_eraseP hgnodup p hp
        have hold := hWF.backwardInv p hpm off id hpslot
        refine (List.mem_eraseP_of_neg ?_).2 hold
        simp only [beq_iff_eq]
        intro hid
        have h2 : (e.1, e.2) ∈ s.mChannelMap := by
          rw [Prod.mk.eta]
          exact hem
        have h1 : (e.1, (p.1, off)) ∈ s.mChannelMap := by
          rw [← hek, hek] at hid
          rw [show id = e.1 by rw [hid, hek]] at hold
          exact hold
        have := mem_keys_unique hWF.keysNodup h1 h2
        exact hpk (congrArg Prod.fst this)
      · -- count
        have hsum := occSum_eraseP hgnodup hgmem
        show occSum (s.mChannelGroups.eraseP (fun p => p.1 == e.2.1)) =
          (s.mChannelMap.eraseP (fun x => x.1 == (t, u))).length
        have hcount := hWF.countEq
        omega
    · rw [if_neg hzero]
      refine ⟨?_, hkeysgoal⟩
      have hg'wf : GroupWF g' := ⟨hg'len, hg'live⟩
      constructor
      · intro p hp
        obtain ⟨p0, hp0, hpe⟩ := mem_updateGroup hp
        by_cases hp01 : (p0.1 == e.2.1) = true
        · rw [hpe, if_pos hp01]
          exact hg'wf
        · rw [hpe, if_neg hp01]
          exact hWF.groupsWF p0 hp0
      · rw [updateGroup_keys]
        exact hWF.idsSorted
      · rw [hkeysgoal]
        exact List.Nodup.sublist (List.eraseP_sublist _) hWF.keysNodup
      · -- forward
        intro e' he'
        have he'm := List.mem_of_mem_eraseP he'
        have he'k : e'.1 ≠ (t, u) := not_mem_keys_eraseP hWF.keysNodup e' he'
        obtain ⟨g2, hg2mem, hg2slot⟩ := hWF.forwardInv e' he'm
        by_cases hsame : e'.2.1 = e.2.1
        · have hg2 : g2 = g :=
            mem_keys_unique hgnodup (hsame ▸ hg2mem) hgmem
          rw [hg2] at hg2slot
          by_cases hslot' : e'.2.2 = e.2.2
          · exfalso
            rw [hslot', hslot] at hg2slot
            have : e'.1 = e.1 := by
              have := hg2slot.symm
              exact (Option.some.injEq _ _ ▸ this)
            exact he'k (by rw [this, hek])
          · refine ⟨g', ?_, ?_⟩
            · rw [hsame]
              exact mem_updateGroup_self hgmem g'
            · show (g.mChannels.set e.2.2 none).getD e'.2.2 none = some e'.1
              rw [getD_set_ne (fun hc => hslot' hc.symm)]
              exact hg2slot
        · refine ⟨g2, mem_updateGroup_of_ne g' hg2mem hsame, hg2slot⟩
      · -- backward
        intro p hp off id hpslot
        obtain ⟨p0, hp0, hpe⟩ := mem_updateGroup hp
        by_cases hp01 : (p0.1 == e.2.1) = true
        · rw [hpe, if_pos hp01] at hpslot ⊢
          have hp01' : p0.1 = e.2.1 := by simpa using hp01
          have hp02 : p0.2 = g := by
            apply mem_keys_unique hgnodup _ hgmem
            rw [← hp01']
            rw [Prod.mk.eta]
            exact hp0
          have hoffne : off ≠ e.2.2 := by
            intro hc
            rw [hc] at hpslot
            have : (g.mChannels.set e.2.2 none).getD e.2.2 none = some id := hpslot
            rw [getD_set_eq hoff] at this
            exact Option.noConfusion this
          have hgslot : g.mChannels.getD off none = some id := by
            have : (g.mChannels.set e.2.2 none).getD off none = some id := hpslot
            rwa [getD_set_ne (fun hc => hoffne hc.symm)] at this
          have hold := hWF.backwardInv (e.2.1, g) hgmem off id hgslot
          refine (List.mem_eraseP_of_neg ?_).2 ?_
          · simp only [beq_iff_eq]
            intro hid
            have h2 : (e.1, e.2) ∈ s.mChannelMap := by
              rw [Prod.mk.eta]
              exact hem
            have h1 : (e.1, (e.2.1, off)) ∈ s.mChannelMap := by
              rw [show id = e.1 by rw [hid, hek]] at hold
              exact hold
            have := mem_keys_unique hWF.keysNodup h1 h2
            exact hoffne (congrArg (fun q => q.2) this)
          · rw [hp01']
            exact hold
        · rw [hpe, if_neg hp01] at hpslot ⊢
          have hold := hWF.backwardInv p0 hp0 off id hpslot
          refine (List.mem_eraseP_of_neg ?_).2 hold
          simp only [beq_iff_eq]
          intro hid
          have h2 : (e.1, e.2) ∈ s.mChannelMap := by
            rw [Prod.mk.eta]
            exact hem
          have h1 : (e.1, (p0.1, off)) ∈ s.mChannelMap := by
            rw [show id = e.1 by rw [hid, hek]] at hold
            exact hold
          have := mem_keys_unique hWF.keysNodup h1 h2
          apply hp01
          simp only [beq_iff_eq]
          exact congrArg (fun q => q.1) this
      · -- count
        have hsum := occSum_updateGroup g' hgnodup hgmem
        show occSum (updateGroup s.mChannelGroups e.2.1 g') =
          (s.mChannelMap.eraseP (fun x => x.1 == (t, u))).length
        have hcount := hWF.countEq
        omega

end PixelHal

namespace PixelHal

theorem getD_replicate_none {α : Type} (n i : Nat) :
    (List.replicate n (none : Option α)).getD i none = none := by
  induction n generalizing i with
  | zero => simp
  | succ m ih =>
    cases i with
    | zero => simp [List.replicate]
    | succ j =>
      rw [List.replicate, List.getD_cons_succ]
      exact ih j

theorem updateGroup_append (l₁ l₂ : List (Int × ChannelGroupState)) (gid : Int)
    (g : ChannelGroupState) :
    updateGroup (l₁ ++ l₂) gid g = updateGroup l₁ gid g ++ updateGroup l₂ gid g :=
  List.map_append _ _ _



/-- Extra invariant along `getChannelConfig`-only call sequences: every live
group is nonempty, and at most one group is not full (a new group is created
only when every existing one is full, and channels are only added to the
first non-full group). -/
def WFO (s : ChannelManagerState) : Prop :=
  (∀ p ∈ s.mChannelGroups, 1 ≤ occCount p.2) ∧
  s.mChannelGroups.countP
    (fun p => decide (p.2.getChannelCount < (kMaxChannels : Int))) ≤ 1

theorem countP_updateGroup {groups : List (Int × ChannelGroupState)} {gid : Int}
    {g0 : ChannelGroupState} (g : ChannelGroupState)
    (hnd : (groups.map Prod.fst).Nodup) (hm : (gid, g0) ∈ groups)
    (q : (Int × ChannelGroupState) → Bool) :
    (updateGroup groups gid g).countP q + (if q (gid, g0) then 1 else 0) =
      groups.countP q + (if q (gid, g) then 1 else 0) := by
  induction groups with
  | nil => simp at hm
  | cons x xs ih =>
    have hnd' : (xs.map Prod.fst).Nodup := (List.nodup_cons.1 (by simpa using hnd)).2
    have hx1 : x.1 ∉ xs.map Prod.fst := (List.nodup_cons.1 (by simpa using hnd)).1
    by_cases hxg : x.1 = gid
    · have hx : x = (gid, g0) := by
        rcases List.mem_cons.1 hm with h | h
        · exact h.symm
        · exact absurd (by rw [hxg]; exact List.mem_map_of_mem Prod.fst h) hx1
      have hrest : updateGroup xs gid g = xs := by
        apply updateGroup_of_forall_ne
        intro p hp hc
        exact hx1 (by rw [hxg, ← hc]; exact List.mem_map_of_mem Prod.fst hp)
      rw [updateGroup_cons, if_pos (by simp [hxg]), hrest, List.countP_cons,
        List.countP_cons, hx]
      show xs.countP q + (if q ((gid, g0).1, g) then 1 else 0) + _ = _
      have hq : ((gid, g0).1, g) = (gid, g) := rfl
      rw [hq]
      omega
    · have hm' : (gid, g0) ∈ xs := by
        rcases List.mem_cons.1 hm with h | h
        · exact absurd (by rw [← h]) hxg
        · exact h
      have := ih hnd' hm'
      rw [updateGroup_cons, if_neg (by simp [hxg]), List.countP_cons, List.countP_cons]
      omega

theorem occCount_newGroup (t u : Int) :
    occCount ⟨ChannelGroupState.emptyGroup.mChannels.set 0 (some (t, u)),
      ChannelGroupState.emptyGroup.mLiveChannels + 1⟩ = 1 := by
  have h016 : (0 : Nat) < ChannelGroupState.emptyGroup.mChannels.length := by
    simp [ChannelGroupState.emptyGroup]
    decide
  have hget0 : ChannelGroupState.emptyGroup.mChannels.getD 0 none = none :=
    getD_replicate_none kMaxChannels 0
  have hocc0 : ChannelGroupState.emptyGroup.mChannels.countP (fun c => c.isSome) = 0 := rfl
  have := countP_isSome_set_some (t, u) h016 hget0
  show (ChannelGroupState.emptyGroup.mChannels.set 0 (some (t, u))).countP
    (fun c => c.isSome) = 1
  omega

theorem wf_append_new_group {s : ChannelManagerState} (hWF : WF s) (t u gid : Int)
    (hkeyout : (t, u) ∉ s.mChannelMap.map Prod.fst)
    (hfresh : ∀ k ∈ s.mChannelGroups.map Prod.fst, k < gid) :
    WF ⟨s.mChannelGroups ++
          [(gid, ⟨ChannelGroupState.emptyGroup.mChannels.set 0 (some (t, u)),
                  ChannelGroupState.emptyGroup.mLiveChannels + 1⟩)],
        s.mChannelMap ++ [((t, u), (gid, 0))]⟩ := by
  have hlenrep : ChannelGroupState.emptyGroup.mChannels.length = kMaxChannels := by
    simp [ChannelGroupState.emptyGroup]
  have h016 : (0 : Nat) < ChannelGroupState.emptyGroup.mChannels.length := by
    rw [hlenrep]
    decide
  have hget0 : ChannelGroupState.emptyGroup.mChannels.getD 0 none = none :=
    getD_replicate_none kMaxChannels 0
  have hocc0 : ChannelGroupState.emptyGroup.mChannels.countP (fun c => c.isSome) = 0 := rfl
  have hoccnew : occCount ⟨ChannelGroupState.emptyGroup.mChannels.set 0 (some (t, u)),
      ChannelGroupState.emptyGroup.mLiveChannels + 1⟩ = 1 := by
    have := countP_isSome_set_some (t, u) h016 hget0
    show (ChannelGroupState.emptyGroup.mChannels.set 0 (some (t, u))).countP
      (fun c => c.isSome) = 1
    omega
  constructor
  · intro q hq
    rcases List.mem_append.1 hq with hold | hnew
    · exact hWF.groupsWF q hold
    · rw [List.mem_singleton] at hnew
      subst hnew
      refine ⟨?_, ?_⟩
      · simpa [List.length_set] using hlenrep
      · show ChannelGroupState.emptyGroup.mLiveChannels + 1 = _
        rw [hoccnew]
        rfl
  · rw [List.map_append]
    exact pairwise_lt_append_singleton hWF.idsSorted hfresh
  · rw [List.map_append, List.nodup_append]
    refine ⟨hWF.keysNodup, List.nodup_singleton _, ?_⟩
    intro a ha hb
    simp only [List.map_cons, List.map_nil, List.mem_singleton] at hb
    subst hb
    exact hkeyout ha
  · intro e' he'
    rcases List.mem_append.1 he' with hold | hnew
    · obtain ⟨g2, hg2mem, hg2slot⟩ := hWF.forwardInv e' hold
      exact ⟨g2, List.mem_append.2 (Or.inl hg2mem), hg2slot⟩
    · rw [List.mem_singleton] at hnew
      subst hnew
      refine ⟨⟨ChannelGroupState.emptyGroup.mChannels.set 0 (some (t, u)),
          ChannelGroupState.emptyGroup.mLiveChannels + 1⟩,
        List.mem_append.2 (Or.inr (by simp)), ?_⟩
      show (ChannelGroupState.emptyGroup.mChannels.set 0 (some (t, u))).getD 0 none =
        some (t, u)
      exact getD_set_eq h016 _ _
  · intro q hq off id hqslot
    rcases List.mem_append.1 hq with hold | hnew
    · exact List.mem_append.2 (Or.inl (hWF.backwardInv q hold off id hqslot))
    · rw [List.mem_singleton] at hnew
      subst hnew
      by_cases hoff : off = 0
      · subst hoff
        have h1 : (ChannelGroupState.emptyGroup.mChannels.set 0 (some (t, u))).getD 0 none =
            some id := hqslot
        rw [getD_set_eq h016] at h1
        have hid : id = (t, u) := (Option.some.inj h1).symm
        refine List.mem_append.2 (Or.inr ?_)
        simp [hid]
      · exfalso
        have h1 : (ChannelGroupState.emptyGroup.mChannels.set 0 (some (t, u))).getD off none =
            some id := hqslot
        rw [getD_set_ne (fun hc => hoff hc.symm)] at h1
        have h2 : (List.replicate kMaxChannels (none : Option (Int × Int))).getD off none =
            some id := h1
        rw [getD_replicate_none] at h2
        exact Option.noConfusion h2
  · show occSum (s.mChannelGroups ++ [(gid, _)]) = (s.mChannelMap ++ [((t, u), (gid, 0))]).length
    rw [occSum_append, List.length_append]
    have hcount := hWF.countEq
    have : occSum [(gid, ⟨ChannelGroupState.emptyGroup.mChannels.set 0 (some (t, u)),
        ChannelGroupState.emptyGroup.mLiveChannels + 1⟩)] = 1 := by
      rw [occSum_cons]
      show occCount ⟨ChannelGroupState.emptyGroup.mChannels.set 0 (some (t, u)),
          ChannelGroupState.emptyGroup.mLiveChannels + 1⟩ + occSum [] = 1
      rw [hoccnew]
      rfl
    simp only [List.length_singleton]
    omega

theorem getConfig_preserves {s : ChannelManagerState} (hWF : WF s) (t u : Int) :
    ∃ s', cmStep s (.getConfig t u) = some s' ∧ WF s' ∧ (WFO s → WFO s') ∧
      s'.mChannelMap.map Prod.fst =
        (if (t, u) ∈ s.mChannelMap.map Prod.fst then s.mChannelMap.map Prod.fst
         else s.mChannelMap.map Prod.fst ++ [(t, u)]) := by
  have hgnodup : (s.mChannelGroups.map Prod.fst).Nodup := sorted_keys_nodup hWF.idsSorted
  cases hfind : s.mChannelMap.find? (fun e => e.1 == (t, u)) with
  | some e =>
    obtain ⟨hem, hek⟩ := find?_key_some hfind
    obtain ⟨g, hgmem, hslot⟩ := hWF.forwardInv e hem
    have hlook : lookupGroup s.mChannelGroups e.2.1 = some g := by
      unfold lookupGroup
      rw [find?_key_eq_of_mem hgnodup hgmem]
      rfl
    have hkeymem : (t, u) ∈ s.mChannelMap.map Prod.fst := by
      rw [← hek]
      exact List.mem_map_of_mem Prod.fst hem
    refine ⟨s, ?_, hWF, fun h => h, by rw [if_pos hkeymem]⟩
    simp only [cmStep, ChannelManagerState.getChannelConfig,
      ChannelManagerState.getOrCreateChannel, hfind, hlook,
      ChannelGroupState.getChannel]
    have hslot2 := hslot
    rw [List.getD_eq_getElem?_getD] at hslot2
    simp [hslot2]
  | none =>
    have hkeyout : (t, u) ∉ s.mChannelMap.map Prod.fst := by
      intro hc
      obtain ⟨x, hx, hxk⟩ := List.mem_map.1 hc
      exact find?_key_none hfind x hx hxk
    cases hfound : s.mChannelGroups.find?
        (fun p => p.2.getChannelCount < (kMaxChannels : Int)) with
    | some p =>
      have hpmem : p ∈ s.mChannelGroups := List.mem_of_find?_eq_some hfound
      have hplt : p.2.getChannelCount < (kMaxChannels : Int) := by
        have := List.find?_some hfound
        simpa using this
      have hpwf : GroupWF p.2 := hWF.groupsWF p hpmem
      have hkint : ((kMaxChannels : Nat) : Int) = 16 := rfl
      have hoccdef : occCount p.2 = p.2.mChannels.countP (fun c => c.isSome) := rfl
      have hlendef : p.2.mChannels.length = kMaxChannels := hpwf.1
      have hkk : kMaxChannels = 16 := rfl
      have hocclen : p.2.mChannels.countP (fun c => c.isSome) < p.2.mChannels.length := by
        have h2 := hpwf.2
        simp only [ChannelGroupState.getChannelCount] at hplt
        omega
      obtain ⟨slot, hfes⟩ := firstEmptySlot_exists_of_occ_lt hocclen
      obtain ⟨hslotlt, hslotnone⟩ := firstEmptySlot_spec hfes
      have hpeta : (p.1, p.2) ∈ s.mChannelGroups := by
        rw [Prod.mk.eta]
        exact hpmem
      have hlookp : lookupGroup s.mChannelGroups p.1 = some p.2 := by
        unfold lookupGroup
        rw [find?_key_eq_of_mem hgnodup hpeta]
        rfl
      refine ⟨⟨updateGroup s.mChannelGroups p.1
          ⟨p.2.mChannels.set slot (some (t, u)), p.2.mLiveChannels + 1⟩,
          s.mChannelMap ++ [((t, u), (p.1, slot))]⟩, ?_, ?_, ?_, ?_⟩
      · simp only [cmStep, ChannelManagerState.getChannelConfig,
          ChannelManagerState.getOrCreateChannel, hfind, hfound, hlookp,
          ChannelGroupState.createChannel, hfes]
        rfl
      · have hocc' : occCount ⟨p.2.mChannels.set slot (some (t, u)), p.2.mLiveChannels + 1⟩ =
            occCount p.2 + 1 := countP_isSome_set_some (t, u) hslotlt hslotnone
        constructor
        · intro q hq
          obtain ⟨p0, hp0, hqe⟩ := mem_updateGroup hq
          by_cases hp01 : (p0.1 == p.1) = true
          · rw [hqe, if_pos hp01]
            show GroupWF ⟨p.2.mChannels.set slot (some (t, u)), p.2.mLiveChannels + 1⟩
            refine ⟨?_, ?_⟩
            · simpa [List.length_set] using hpwf.1
            · show p.2.mLiveChannels + 1 = _
              have h2 := hpwf.2
              omega
          · rw [hqe, if_neg hp01]
            exact hWF.groupsWF p0 hp0
        · show ((updateGroup s.mChannelGroups p.1
              ⟨p.2.mChannels.set slot (some (t, u)), p.2.mLiveChannels + 1⟩).map Prod.fst).Pairwise (· < ·)
          rw [updateGroup_keys]
          exact hWF.idsSorted
        · show ((s.mChannelMap ++ [((t, u), (p.1, slot))]).map Prod.fst).Nodup
          rw [List.map_append, List.nodup_append]
          refine ⟨hWF.keysNodup, List.nodup_singleton _, ?_⟩
          intro a ha hb
          simp only [List.map_cons, List.map_nil, List.mem_singleton] at hb
          subst hb
          exact hkeyout ha
        · intro e' he'
          rcases List.mem_append.1 he' with hold | hnew
          · obtain ⟨g2, hg2mem, hg2slot⟩ := hWF.forwardInv e' hold
            by_cases hsame : e'.2.1 = p.1
            · have hg2p : g2 = p.2 := mem_keys_unique hgnodup (hsame ▸ hg2mem) hpeta
              refine ⟨⟨p.2.mChannels.set slot (some (t, u)), p.2.mLiveChannels + 1⟩, ?_, ?_⟩
              · rw [hsame]
                exact mem_updateGroup_self hpeta _
              · show (p.2.mChannels.set slot (some (t, u))).getD e'.2.2 none = some e'.1
                have hne : slot ≠ e'.2.2 := by
                  intro hc
                  rw [hg2p, ← hc, hslotnone] at hg2slot
                  exact Option.noConfusion hg2slot
                rw [getD_set_ne hne]
                rw [hg2p] at hg2slot
                exact hg2slot
            · exact ⟨g2, mem_updateGroup_of_ne _ hg2mem hsame, hg2slot⟩
          · rw [List.mem_singleton] at hnew
            subst hnew
            refine ⟨⟨p.2.mChannels.set slot (some (t, u)), p.2.mLiveChannels + 1⟩, mem_updateGroup_self hpeta _, ?_⟩
            show (p.2.mChannels.set slot (some (t, u))).getD slot none = some (t, u)
            exact getD_set_eq hslotlt _ _
        · intro q hq off id hqslot
          obtain ⟨p0, hp0, hqe⟩ := mem_updateGroup hq
          by_cases hp01 : (p0.1 == p.1) = true
          · rw [hqe, if_pos hp01] at hqslot ⊢
            have hp01' : p0.1 = p.1 := by simpa using hp01
            by_cases hoffslot : off = slot
            · rw [hoffslot] at hqslot ⊢
              have h1 : (p.2.mChannels.set slot (some (t, u))).getD slot none = some id :=
                hqslot
              rw [getD_set_eq hslotlt] at h1
              have hid : id = (t, u) := (Option.some.inj h1).symm
              refine List.mem_append.2 (Or.inr ?_)
              simp [hid, hp01']
            · have h1 : (p.2.mChannels.set slot (some (t, u))).getD off none = some id :=
                hqslot
              rw [getD_set_ne (fun hc => hoffslot hc.symm)] at h1
              have hold := hWF.backwardInv (p.1, p.2) hpeta off id h1
              rw [hp01']
              exact List.mem_append.2 (Or.inl hold)
          · rw [hqe, if_neg hp01] at hqslot ⊢
            exact List.mem_append.2 (Or.inl (hWF.backwardInv p0 hp0 off id hqslot))
        · have hsum := occSum_updateGroup
            ⟨p.2.mChannels.set slot (some (t, u)), p.2.mLiveChannels + 1⟩ hgnodup hpeta
          show occSum (updateGroup s.mChannelGroups p.1 _) =
            (s.mChannelMap ++ [((t, u), (p.1, slot))]).length
          rw [List.length_append]
          have hcount := hWF.countEq
          have hocc'' : occCount ⟨p.2.mChannels.set slot (some (t, u)), p.2.mLiveChannels + 1⟩ =
              occCount p.2 + 1 := countP_isSome_set_some (t, u) hslotlt hslotnone
          simp only [List.length_singleton]
          omega
      · intro hwfo
        have hocc3 : occCount ⟨p.2.mChannels.set slot (some (t, u)),
            p.2.mLiveChannels + 1⟩ = occCount p.2 + 1 :=
          countP_isSome_set_some (t, u) hslotlt hslotnone
        constructor
        · intro q hq
          obtain ⟨p0, hp0, hqe⟩ := mem_updateGroup hq
          by_cases hp01 : (p0.1 == p.1) = true
          · rw [hqe, if_pos hp01]
            show 1 ≤ occCount ⟨p.2.mChannels.set slot (some (t, u)),
              p.2.mLiveChannels + 1⟩
            omega
          · rw [hqe, if_neg hp01]
            exact hwfo.1 p0 hp0
        · show (updateGroup s.mChannelGroups p.1
              ⟨p.2.mChannels.set slot (some (t, u)), p.2.mLiveChannels + 1⟩).countP
              (fun p => decide (p.2.getChannelCount < (kMaxChannels : Int))) ≤ 1
          have hcnt := countP_updateGroup
            ⟨p.2.mChannels.set slot (some (t, u)), p.2.mLiveChannels + 1⟩ hgnodup hpeta
            (fun p => decide (p.2.getChannelCount < (kMaxChannels : Int)))
          rw [if_pos (by simp only [decide_eq_true_eq]; exact hplt)] at hcnt
          have hpart := hwfo.2
          split at hcnt <;> omega
      · rw [if_neg hkeyout]
        show (s.mChannelMap ++ [((t, u), (p.1, slot))]).map Prod.fst = _
        rw [List.map_append]
        rfl
    | none =>
      have hnofree : ∀ x ∈ s.mChannelGroups,
          ¬(x.2.getChannelCount < (kMaxChannels : Int)) := by
        intro x hx
        have := List.find?_eq_none.1 hfound x hx
        simpa using this
      have hfes0 : firstEmptySlot ChannelGroupState.emptyGroup.mChannels = some 0 := rfl
      cases hlast : s.mChannelGroups.getLast? with
      | none =>
        have hempty : s.mChannelGroups = [] := List.getLast?_eq_none_iff.1 hlast
        have hfresh : ∀ k ∈ s.mChannelGroups.map Prod.fst, k < (0 : Int) := by
          rw [hempty]
          simp
        have hlookB : lookupGroup (s.mChannelGroups ++
            [((0 : Int), ChannelGroupState.emptyGroup)]) 0 =
            some ChannelGroupState.emptyGroup := by
          rw [hempty]
          rfl
        refine ⟨⟨s.mChannelGroups ++
            [((0 : Int), ⟨ChannelGroupState.emptyGroup.mChannels.set 0 (some (t, u)),
              ChannelGroupState.emptyGroup.mLiveChannels + 1⟩)],
            s.mChannelMap ++ [((t, u), (0, 0))]⟩, ?_, ?_, ?_, ?_⟩
        · have hupd : updateGroup (s.mChannelGroups ++
              [((0 : Int), ChannelGroupState.emptyGroup)]) 0
              ⟨ChannelGroupState.emptyGroup.mChannels.set 0 (some (t, u)),
               ChannelGroupState.emptyGroup.mLiveChannels + 1⟩ =
              s.mChannelGroups ++
              [((0 : Int), ⟨ChannelGroupState.emptyGroup.mChannels.set 0 (some (t, u)),
                ChannelGroupState.emptyGroup.mLiveChannels + 1⟩)] := by
            rw [updateGroup_append,
              updateGroup_of_forall_ne _
                (fun p hp => ne_of_lt (hfresh p.1 (List.mem_map_of_mem Prod.fst hp)))]
            rfl
          simp only [cmStep, ChannelManagerState.getChannelConfig,
            ChannelManagerState.getOrCreateChannel, hfind, hfound, hlast, hlookB,
            ChannelGroupState.createChannel, hfes0]
          rw [hupd]
          rfl
        · exact wf_append_new_group hWF t u 0 hkeyout hfresh
        · intro hwfo
          constructor
          · intro q hq
            rcases List.mem_append.1 hq with hold | hnew
            · exact hwfo.1 q hold
            · rw [List.mem_singleton] at hnew
              subst hnew
              show 1 ≤ occCount ⟨ChannelGroupState.emptyGroup.mChannels.set 0 (some (t, u)),
                ChannelGroupState.emptyGroup.mLiveChannels + 1⟩
              rw [occCount_newGroup]
          · show ((s.mChannelGroups ++ [((0 : Int),
                (⟨ChannelGroupState.emptyGroup.mChannels.set 0 (some (t, u)),
                 ChannelGroupState.emptyGroup.mLiveChannels + 1⟩ : ChannelGroupState))]).countP
                (fun p => decide (p.2.getChannelCount < (kMaxChannels : Int)))) ≤ 1
            rw [List.countP_append]
            have h0 : s.mChannelGroups.countP
                (fun p => decide (p.2.getChannelCount < (kMaxChannels : Int))) = 0 := by
              apply List.countP_eq_zero.2
              intro a ha
              simp only [decide_eq_true_eq]
              exact hnofree a ha
            have h1 := List.countP_le_length
              (fun p : Int × ChannelGroupState =>
                decide (p.2.getChannelCount < (kMaxChannels : Int)))
              (l := [((0 : Int),
                (⟨ChannelGroupState.emptyGroup.mChannels.set 0 (some (t, u)),
                 ChannelGroupState.emptyGroup.mLiveChannels + 1⟩ : ChannelGroupState))])
            simp only [List.length_singleton] at h1
            omega
        · rw [if_neg hkeyout]
          show (s.mChannelMap ++ [((t, u), (0, 0))]).map Prod.fst = _
          rw [List.map_append]
          rfl
      | some q =>
        have hfresh : ∀ k ∈ s.mChannelGroups.map Prod.fst, k < q.1 + 1 := by
          intro k hk
          have hlk : (s.mChannelGroups.map Prod.fst).getLast? = some q.1 := by
            rw [List.getLast?_map, hlast]
            rfl
          have := sorted_le_getLast hWF.idsSorted hlk k hk
          omega
        have hlookB : lookupGroup (s.mChannelGroups ++
            [(q.1 + 1, ChannelGroupState.emptyGroup)]) (q.1 + 1) =
            some ChannelGroupState.emptyGroup := by
          unfold lookupGroup
          rw [find?_append_of_none]
          · simp
          · intro x hx
            have := hfresh x.1 (List.mem_map_of_mem Prod.fst hx)
            simp only [beq_iff_eq]
            omega
        refine ⟨⟨s.mChannelGroups ++
            [(q.1 + 1, ⟨ChannelGroupState.emptyGroup.mChannels.set 0 (some (t, u)),
              ChannelGroupState.emptyGroup.mLiveChannels + 1⟩)],
            s.mChannelMap ++ [((t, u), (q.1 + 1, 0))]⟩, ?_, ?_, ?_, ?_⟩
        · have hupd : updateGroup (s.mChannelGroups ++
              [(q.1 + 1, ChannelGroupState.emptyGroup)]) (q.1 + 1)
              ⟨ChannelGroupState.emptyGroup.mChannels.set 0 (some (t, u)),
               ChannelGroupState.emptyGroup.mLiveChannels + 1⟩ =
              s.mChannelGroups ++
              [(q.1 + 1, ⟨ChannelGroupState.emptyGroup.mChannels.set 0 (some (t, u)),
                ChannelGroupState.emptyGroup.mLiveChannels + 1⟩)] := by
            rw [updateGroup_append,
              updateGroup_of_forall_ne _
                (fun p hp => ne_of_lt (hfresh p.1 (List.mem_map_of_mem Prod.fst hp)))]
            simp [updateGroup]
          simp only [cmStep, ChannelManagerState.getChannelConfig,
            ChannelManagerState.getOrCreateChannel, hfind, hfound, hlast, hlookB,
            ChannelGroupState.createChannel, hfes0]
          rw [hupd]
          rfl
        · exact wf_append_new_group hWF t u (q.1 + 1) hkeyout hfresh
        · intro hwfo
          constructor
          · intro x hx
            rcases List.mem_append.1 hx with hold | hnew
            · exact hwfo.1 x hold
            · rw [List.mem_singleton] at hnew
              subst hnew
              show 1 ≤ occCount ⟨ChannelGroupState.emptyGroup.mChannels.set 0 (some (t, u)),
                ChannelGroupState.emptyGroup.mLiveChannels + 1⟩
              rw [occCount_newGroup]
          · show ((s.mChannelGroups ++ [(q.1 + 1,
                (⟨ChannelGroupState.emptyGroup.mChannels.set 0 (some (t, u)),
                 ChannelGroupState.emptyGroup.mLiveChannels + 1⟩ : ChannelGroupState))]).countP
                (fun p => decide (p.2.getChannelCount < (kMaxChannels : Int)))) ≤ 1
            rw [List.countP_append]
            have h0 : s.mChannelGroups.countP
                (fun p => decide (p.2.getChannelCount < (kMaxChannels : Int))) = 0 := by
              apply List.countP_eq_zero.2
              intro a ha
              simp only [decide_eq_true_eq]
              exact hnofree a ha
            have h1 := List.countP_le_length
              (fun p : Int × ChannelGroupState =>
                decide (p.2.getChannelCount < (kMaxChannels : Int)))
              (l := [(q.1 + 1,
                (⟨ChannelGroupState.emptyGroup.mChannels.set 0 (some (t, u)),
                 ChannelGroupState.emptyGroup.mLiveChannels + 1⟩ : ChannelGroupState))])
            simp only [List.length_singleton] at h1
            omega
        · rw [if_neg hkeyout]
          show (s.mChannelMap ++ [((t, u), (q.1 + 1, 0))]).map Prod.fst = _
          rw [List.map_append]
          rfl

end PixelHal

namespace PixelHal

theorem WFO_empty : WFO ChannelManagerState.empty := by
  constructor <;> simp [ChannelManagerState.empty]

/-- Every call sequence from a well-formed state runs without hitting a
fatal branch, preserves well-formedness, and tracks the registered-identity
bookkeeping. -/
theorem cmRun_wf (ops : List CMOp) :
    ∀ s, WF s → ∃ s', cmRun s ops = some s' ∧ WF s' ∧
      s'.mChannelMap.map Prod.fst =
        ops.foldl activeStep (s.mChannelMap.map Prod.fst) := by
  induction ops with
  | nil => exact fun s hs => ⟨s, rfl, hs, rfl⟩
  | cons op rest ih =>
    intro s hs
    cases op with
    | getConfig t u =>
      obtain ⟨s1, hstep, hwf1, _, hkeys1⟩ := getConfig_preserves hs t u
      obtain ⟨s', hrun, hwf', hkeys'⟩ := ih s1 hwf1
      refine ⟨s', ?_, hwf', ?_⟩
      · rw [cmRun, hstep]
        exact hrun
      · rw [hkeys', hkeys1]
        rfl
    | closeCh t u =>
      have hcp := closeChannel_preserves hs t u
      obtain ⟨s', hrun, hwf', hkeys'⟩ := ih (s.closeChannel t u).1 hcp.1
      refine ⟨s', ?_, hwf', ?_⟩
      · rw [cmRun]
        show (match cmStep s (.closeCh t u) with
          | none => none
          | some s2 => cmRun s2 rest) = some s'
        rw [show cmStep s (.closeCh t u) = some (s.closeChannel t u).1 from rfl]
        exact hrun
      · rw [hkeys', hcp.2]
        rfl

/-- A `getChannelConfig`-only call sequence additionally preserves the
placement invariant `WFO`. -/
theorem cmRun_wf_open (ids : List (Int × Int)) :
    ∀ s, WF s → WFO s →
      ∃ s', cmRun s (ids.map fun p => CMOp.getConfig p.1 p.2) = some s' ∧
        WF s' ∧ WFO s' ∧
        s'.mChannelMap.map Prod.fst =
          (ids.map fun p => CMOp.getConfig p.1 p.2).foldl activeStep
            (s.mChannelMap.map Prod.fst) := by
  induction ids with
  | nil => exact fun s hs hso => ⟨s, rfl, hs, hso, rfl⟩
  | cons x xs ih =>
    intro s hs hso
    obtain ⟨s1, hstep, hwf1, hwfo1, hkeys1⟩ := getConfig_preserves hs x.1 x.2
    obtain ⟨s', hrun, hwf', hwfo', hkeys'⟩ := ih s1 hwf1 (hwfo1 hso)
    refine ⟨s', ?_, hwf', hwfo', ?_⟩
    · rw [List.map_cons, cmRun, hstep]
      exact hrun
    · rw [hkeys', hkeys1]
      rfl

/-- With all groups well-formed, `getChannelCount` is the number of occupied
slots. -/
theorem liveSum_eq_occSum (groups : List (Int × ChannelGroupState))
    (hall : ∀ p ∈ groups, GroupWF p.2) :
    (groups.map (fun p => p.2.getChannelCount)).sum = (occSum groups : Int) := by
  induction groups with
  | nil => simp [occSum]
  | cons x xs ih =>
    have hx := hall x (by simp)
    have := ih (fun p hp => hall p (List.mem_cons_of_mem x hp))
    rw [List.map_cons, List.sum_cons, occSum_cons, this]
    show x.2.mLiveChannels + (occSum xs : Int) = _
    rw [hx.2]
    push_cast
    ring

theorem getChannelCount_eq {s : ChannelManagerState} (hWF : WF s) :
    s.getChannelCount = (s.mChannelMap.length : Int) := by
  unfold ChannelManagerState.getChannelCount
  rw [liveSum_eq_occSum _ hWF.groupsWF, hWF.countEq]

theorem occCount_le_16 {g : ChannelGroupState} (h : GroupWF g) :
    occCount g ≤ 16 := by
  have := List.countP_le_length (fun c : Option (Int × Int) => c.isSome) (l := g.mChannels)
  have hlen := h.1
  have hk : kMaxChannels = 16 := rfl
  show g.mChannels.countP (fun c => c.isSome) ≤ 16
  omega

theorem occSum_le_16_mul (groups : List (Int × ChannelGroupState))
    (hall : ∀ p ∈ groups, GroupWF p.2) :
    occSum groups ≤ 16 * groups.length := by
  induction groups with
  | nil => simp [occSum]
  | cons x xs ih =>
    have hx := occCount_le_16 (hall x (by simp))
    have := ih (fun p hp => hall p (List.mem_cons_of_mem x hp))
    rw [occSum_cons, List.length_cons]
    omega

theorem occSum_of_all_16 (groups : List (Int × ChannelGroupState))
    (hall : ∀ p ∈ groups, occCount p.2 = 16) :
    occSum groups = 16 * groups.length := by
  induction groups with
  | nil => simp [occSum]
  | cons x xs ih =>
    have hx := hall x (by simp)
    have := ih (fun p hp => hall p (List.mem_cons_of_mem x hp))
    rw [occSum_cons, List.length_cons, hx]
    omega

/-- Under `WF` and the placement invariant: all groups but at most one are
full and each is nonempty, so the group count is tightly bounded by the
total channel count. -/
theorem occSum_lower_bound (groups : List (Int × ChannelGroupState))
    (hall : ∀ p ∈ groups, GroupWF p.2)
    (hne : ∀ p ∈ groups, 1 ≤ occCount p.2)
    (hpart : groups.countP
      (fun p => decide (p.2.getChannelCount < (kMaxChannels : Int))) ≤ 1) :
    16 * groups.length ≤ occSum groups + 15 := by
  induction groups with
  | nil => simp [occSum]
  | cons x xs ih =>
    have hxwf := hall x (by simp)
    have hxne := hne x (by simp)
    rw [List.countP_cons] at hpart
    by_cases hx : (decide (x.2.getChannelCount < (kMaxChannels : Int))) = true
    · -- x is the (at most one) non-full group: every other group is full
      rw [if_pos hx] at hpart
      have hxs0 : xs.countP
          (fun p => decide (p.2.getChannelCount < (kMaxChannels : Int))) = 0 := by
        omega
      have hall16 : ∀ p ∈ xs, occCount p.2 = 16 := by
        intro p hp
        have hq := List.countP_eq_zero.1 hxs0 p hp
        have hgw := hall p (List.mem_cons_of_mem x hp)
        have hle := occCount_le_16 hgw
        simp only [decide_eq_true_eq, not_lt] at hq
        have hlive := hgw.2
        have hgc : p.2.getChannelCount = p.2.mLiveChannels := rfl
        have hk : ((kMaxChannels : Nat) : Int) = 16 := rfl
        omega
      rw [occSum_cons, List.length_cons, occSum_of_all_16 xs hall16]
      omega
    · -- x is full
      have hx16 : occCount x.2 = 16 := by
        have hle := occCount_le_16 hxwf
        simp only [decide_eq_true_eq, not_lt] at hx
        have hlive := hxwf.2
        have hgc : x.2.getChannelCount = x.2.mLiveChannels := rfl
        have hk : ((kMaxChannels : Nat) : Int) = 16 := rfl
        omega
      have hihres := ih (fun p hp => hall p (List.mem_cons_of_mem x hp))
        (fun p hp => hne p (List.mem_cons_of_mem x hp)) (by omega)
      rw [occSum_cons, List.length_cons, hx16]
      omega

/-- Folding the spec bookkeeping over distinct `getConfig` calls appends the
identities. -/
theorem activeStep_fold_getConfig (ids : List (Int × Int)) :
    ∀ acc, (acc ++ ids).Nodup →
      (ids.map fun p => CMOp.getConfig p.1 p.2).foldl activeStep acc = acc ++ ids := by
  induction ids with
  | nil => simp
  | cons x xs ih =>
    intro acc hnd
    have hx : x ∉ acc := by
      rw [List.nodup_append] at hnd
      intro hc
      exact hnd.2.2 hc (by simp)
    have hstep : activeStep acc (CMOp.getConfig x.1 x.2) = acc ++ [x] := by
      show (if (x.1, x.2) ∈ acc then acc else acc ++ [(x.1, x.2)]) = acc ++ [x]
      rw [if_neg (by rw [Prod.mk.eta]; exact hx), Prod.mk.eta]
    rw [List.map_cons, List.foldl_cons, hstep, ih (acc ++ [x]) (by simpa using hnd)]
    simp

end PixelHal

namespace PixelHal

/-- C2: starting from a fresh `ChannelManager`, (a) after any call sequence
the manager runs without a fatal abort and `getChannelCount()` equals the
number of distinct identities registered and not yet closed; and (b) for
any sequence of `getChannelConfig` calls with distinct `(tgid, uid)` pairs,
the first 16 fit in one group while a 17th distinct pair forces
`getGroupCount()` above 1. -/
theorem channelManager_placement_and_count :
    (∀ ops : List CMOp, ∃ s, cmRun ChannelManagerState.empty ops = some s ∧
        s.getChannelCount = ((activeIds ops).length : Int)) ∧
    (∀ ids : List (Int × Int), ids.Nodup →
      ∃ s, cmRun ChannelManagerState.empty
          (ids.map fun p => CMOp.getConfig p.1 p.2) = some s ∧
        s.getChannelCount = (ids.length : Int) ∧
        (ids.length ≤ 16 → s.getGroupCount ≤ 1) ∧
        (ids.length = 17 → 1 < s.getGroupCount)) := by
  constructor
  · intro ops
    obtain ⟨s, hrun, hwf, hkeys⟩ := cmRun_wf ops ChannelManagerState.empty WF_empty
    refine ⟨s, hrun, ?_⟩
    rw [getChannelCount_eq hwf]
    have h1 : s.mChannelMap.length = (s.mChannelMap.map Prod.fst).length :=
      (List.length_map _ _).symm
    rw [h1, hkeys]
    rfl
  · intro ids hnd
    obtain ⟨s, hrun, hwf, hwfo, hkeys⟩ :=
      cmRun_wf_open ids ChannelManagerState.empty WF_empty WFO_empty
    have hkeys2 : s.mChannelMap.map Prod.fst = ids := by
      rw [hkeys]
      have := activeStep_fold_getConfig ids [] (by simpa using hnd)
      simpa using this
    have hlen : s.mChannelMap.length = ids.length := by
      rw [← List.length_map s.mChannelMap Prod.fst, hkeys2]
    have hcc : s.getChannelCount = (ids.length : Int) := by
      rw [getChannelCount_eq hwf, hlen]
    have hocc : occSum s.mChannelGroups = ids.length := by
      rw [hwf.countEq, hlen]
    refine ⟨s, hrun, hcc, ?_, ?_⟩
    · intro h16
      have hlow := occSum_lower_bound s.mChannelGroups hwf.groupsWF hwfo.1 hwfo.2
      show (s.mChannelGroups.length : Int) ≤ 1
      have : s.mChannelGroups.length ≤ 1 := by omega
      omega
    · intro h17
      have hup := occSum_le_16_mul s.mChannelGroups hwf.groupsWF
      show (1 : Int) < (s.mChannelGroups.length : Int)
      have : 2 ≤ s.mChannelGroups.length := by omega
      omega

/-- The 17 distinct identities used by the C2 witness (mirroring the
`testManyChannelsSpawnMoreGroups` unit test's tgid/uid scheme). -/
def c2WitnessIds : List (Int × Int) :=
  (List.range 17).map (fun i => ((4000 + i : Int), (3000 + i : Int)))

/-- C2 witness: the theorem applied to 17 concrete distinct identities:
the run succeeds, the channel count is 17 and the group count exceeds 1;
and to the 16-identity prefix, where one group suffices. -/
theorem channelManager_placement_and_count_wit :
    (c2WitnessIds.Nodup ∧ c2WitnessIds.length = 17) ∧
    (∃ s, cmRun ChannelManagerState.empty
        (c2WitnessIds.map fun p => CMOp.getConfig p.1 p.2) = some s ∧
      s.getChannelCount = 17 ∧ 1 < s.getGroupCount) ∧
    (∃ s, cmRun ChannelManagerState.empty
        ((c2WitnessIds.take 16).map fun p => CMOp.getConfig p.1 p.2) = some s ∧
      s.getChannelCount = 16 ∧ s.getGroupCount ≤ 1) := by
  refine ⟨⟨by decide, by decide⟩, ?_, ?_⟩
  · obtain ⟨s, hrun, hcc, _, h17⟩ :=
      channelManager_placement_and_count.2 c2WitnessIds (by decide)
    refine ⟨s, hrun, ?_, h17 (by decide)⟩
    rw [hcc]
    decide
  · obtain ⟨s, hrun, hcc, h16, _⟩ :=
      channelManager_placement_and_count.2 (c2WitnessIds.take 16) (by decide)
    refine ⟨s, hrun, ?_, h16 (by decide)⟩
    rw [hcc]
    decide

end PixelHal

namespace PixelHal

/-! ## SysfsCollector::collect (pixelstats/SysfsCollector.cpp)

The wake-tick cadence counters of the timer loop.  One `collectStep` models
one iteration of the `while (1)` body after a successful `read(timerfd)`
returning `expire.count` elapsed 5-minute ticks. -/

/-- `constexpr int kSecondsPerWake = 5 * 60`. -/
def kSecondsPerWake : Int := 5 * 60

/-- `constexpr int kWakesPer5Min = 5 * 60 / kSecondsPerWake` (= 1). -/
def kWakesPer5Min : Int := (5 * 60 : Int).tdiv kSecondsPerWake

/-- `constexpr int kWakesPerHour = 60 * 60 / kSecondsPerWake` (= 12). -/
def kWakesPerHour : Int := (60 * 60 : Int).tdiv kSecondsPerWake

/-- `constexpr int kWakesPerDay = 24 * 60 * 60 / kSecondsPerWake` (= 288). -/
def kWakesPerDay : Int := (24 * 60 * 60 : Int).tdiv kSecondsPerWake

/-- The three wake counters (`int` in the source). -/
structure CollectTimers where
  wake_5min : Int
  wake_hours : Int
  wake_days : Int
deriving DecidableEq, Repr

/-- The outcome of one loop iteration: updated counters, and whether
`aggregatePer5Min` / `logPerHour` / `logPerDay` were invoked. -/
structure CollectStepResult where
  timers : CollectTimers
  fired5Min : Bool
  firedHour : Bool
  firedDay : Bool
deriving DecidableEq, Repr

/-- One iteration of the `SysfsCollector::collect` timer loop with
`expireCount = expire.count` (the number of timer expirations read). -/
def collectStep (t : CollectTimers) (expireCount : Int) : CollectStepResult :=
  let w5 := t.wake_5min + expireCount
  let wh := t.wake_hours + expireCount
  let wd := t.wake_days + expireCount
  let f5 := decide (w5 ≥ kWakesPer5Min)
  let w5 := if f5 then w5.tmod kWakesPer5Min else w5
  let fh := decide (wh ≥ kWakesPerHour)
  let wh := if fh then wh.tmod kWakesPerHour else wh
  let fd := decide (wd ≥ kWakesPerDay)
  let wd := if fd then wd.tmod kWakesPerDay else wd
  ⟨⟨w5, wh, wd⟩, f5, fh, fd⟩

theorem collectStep_def (t : CollectTimers) (c : Int) :
    collectStep t c =
      ⟨⟨if decide (t.wake_5min + c ≥ kWakesPer5Min) = true
          then (t.wake_5min + c).tmod kWakesPer5Min else t.wake_5min + c,
        if decide (t.wake_hours + c ≥ kWakesPerHour) = true
          then (t.wake_hours + c).tmod kWakesPerHour else t.wake_hours + c,
        if decide (t.wake_days + c ≥ kWakesPerDay) = true
          then (t.wake_days + c).tmod kWakesPerDay else t.wake_days + c⟩,
       decide (t.wake_5min + c ≥ kWakesPer5Min),
       decide (t.wake_hours + c ≥ kWakesPerHour),
       decide (t.wake_days + c ≥ kWakesPerDay)⟩ := rfl

/-- The counters after `n` single-expiration wakes from the initial
`wake_5min = wake_hours = wake_days = 0`. -/
def collectRunUnit : Nat → CollectTimers
  | 0 => ⟨0, 0, 0⟩
  | n + 1 => (collectStep (collectRunUnit n) 1).timers

theorem collectRunUnit_closed (n : Nat) :
    collectRunUnit n = ⟨0, ((n % 12 : Nat) : Int), ((n % 288 : Nat) : Int)⟩ := by
  induction n with
  | zero => rfl
  | succ n ih =>
    show (collectStep (collectRunUnit n) 1).timers = _
    rw [ih, collectStep_def]
    dsimp only
    rw [CollectTimers.mk.injEq]
    refine ⟨by decide, ?_, ?_⟩
    · by_cases h : n % 12 = 11
      · have h1 : (n + 1) % 12 = 0 := by omega
        rw [h, h1]
        decide
      · have h1 : (n + 1) % 12 = n % 12 + 1 := by omega
        have hk : kWakesPerHour = 12 := by decide
        rw [if_neg, h1]
        · push_cast
          ring
        · simp only [decide_eq_true_eq, not_le, ge_iff_le]
          omega
    · by_cases h : n % 288 = 287
      · have h1 : (n + 1) % 288 = 0 := by omega
        rw [h, h1]
        decide
      · have h1 : (n + 1) % 288 = n % 288 + 1 := by omega
        have hk : kWakesPerDay = 288 := by decide
        rw [if_neg, h1]
        · push_cast
          ring
        · simp only [decide_eq_true_eq, not_le, ge_iff_le]
          omega

/-- C8: in the `SysfsCollector::collect` timer loop, with one 5-minute wake
tick per iteration from boot, `logPerHour` fires on exactly every 12th tick
(`kWakesPerHour`) and `logPerDay` on exactly every 288th (`kWakesPerDay`);
and for any expiration count, a counter is reduced modulo its period
whenever it fires, so starting from nonnegative counters every counter
stays below its period after each iteration (no unbounded growth). -/
theorem sysfsCollector_cadence :
    (∀ n : Nat,
      (((collectStep (collectRunUnit n) 1).firedHour = true) ↔ (n + 1) % 12 = 0) ∧
      (((collectStep (collectRunUnit n) 1).firedDay = true) ↔ (n + 1) % 288 = 0)) ∧
    (∀ (t : CollectTimers) (c : Int), 0 ≤ c →
      0 ≤ t.wake_5min → 0 ≤ t.wake_hours → 0 ≤ t.wake_days →
      (0 ≤ (collectStep t c).timers.wake_5min ∧
        (collectStep t c).timers.wake_5min < kWakesPer5Min) ∧
      (0 ≤ (collectStep t c).timers.wake_hours ∧
        (collectStep t c).timers.wake_hours < kWakesPerHour) ∧
      (0 ≤ (collectStep t c).timers.wake_days ∧
        (collectStep t c).timers.wake_days < kWakesPerDay)) := by
  constructor
  · intro n
    rw [collectRunUnit_closed, collectStep_def]
    dsimp only
    have hkh : kWakesPerHour = 12 := by decide
    have hkd : kWakesPerDay = 288 := by decide
    constructor
    · rw [decide_eq_true_eq]
      constructor
      · intro h
        omega
      · intro h
        omega
    · rw [decide_eq_true_eq]
      constructor
      · intro h
        omega
      · intro h
        omega
  · intro t c hc h5 hh hd
    rw [collectStep_def]
    dsimp only
    have hk5 : kWakesPer5Min = 1 := by decide
    have hkh : kWakesPerHour = 12 := by decide
    have hkd : kWakesPerDay = 288 := by decide
    refine ⟨?_, ?_, ?_⟩ <;> split
    case _ hcase =>
      rw [decide_eq_true_eq] at hcase
      exact ⟨Int.tmod_nonneg kWakesPer5Min (by omega),
        Int.tmod_lt_of_pos (t.wake_5min + c) (by omega)⟩
    case _ hcase =>
      rw [decide_eq_true_eq] at hcase
      omega
    case _ hcase =>
      rw [decide_eq_true_eq] at hcase
      exact ⟨Int.tmod_nonneg kWakesPerHour (by omega),
        Int.tmod_lt_of_pos (t.wake_hours + c) (by omega)⟩
    case _ hcase =>
      rw [decide_eq_true_eq] at hcase
      omega
    case _ hcase =>
      rw [decide_eq_true_eq] at hcase
      exact ⟨Int.tmod_nonneg kWakesPerDay (by omega),
        Int.tmod_lt_of_pos (t.wake_days + c) (by omega)⟩
    case _ hcase =>
      rw [decide_eq_true_eq] at hcase
      omega

/-- C8 witness: tick 12 fires the hourly log, tick 11 does not, tick 288
fires the daily log, and a concrete multi-expiration step stays bounded. -/
theorem sysfsCollector_cadence_wit :
    ((collectStep (collectRunUnit 11) 1).firedHour = true ∧ (11 + 1) % 12 = 0) ∧
    ((collectStep (collectRunUnit 10) 1).firedHour = false) ∧
    ((collectStep (collectRunUnit 287) 1).firedDay = true ∧ (287 + 1) % 288 = 0) ∧
    ((0 : Int) ≤ 5 ∧
      (collectStep ⟨0, 11, 287⟩ 5).timers.wake_hours < kWakesPerHour ∧
      (collectStep ⟨0, 11, 287⟩ 5).timers.wake_days < kWakesPerDay) := by
  refine ⟨⟨?_, by decide⟩, by decide, ⟨?_, by decide⟩, ⟨by decide, ?_, ?_⟩⟩
  · exact ((sysfsCollector_cadence.1 11).1).2 (by decide)
  · exact ((sysfsCollector_cadence.1 287).2).2 (by decide)
  · exact ((sysfsCollector_cadence.2 ⟨0, 11, 287⟩ 5 (by decide) (by decide) (by decide)
      (by decide)).2.1).2
  · exact ((sysfsCollector_cadence.2 ⟨0, 11, 287⟩ 5 (by decide) (by decide) (by decide)
      (by decide)).2.2).2

end PixelHal

namespace PixelHal

/-! ## BatteryFGReporter::reportFGEvent (pixelstats/BatteryFGReporter.cpp)

`data.event` is `int32_t`; `kNumMaxEvents` is `unsigned int`, so the guard
`data.event >= kNumMaxEvents` compares after the usual arithmetic
conversions, i.e. on the `uint32_t` value of `data.event`. -/

/-- `static constexpr unsigned int kNumMaxEvents = 8`. -/
def kNumMaxEvents : Nat := 8

/-- The fields of `struct BatteryFGPipeline` relevant to the control flow
(the 32 register address/data fields are passed through unchanged). -/
structure BatteryFGPipeline where
  event : Int
  state : Int
  duration : Int
deriving DecidableEq, Repr

/-- The `uint32_t` value of an `int32_t` after the usual arithmetic
conversions (as in `data.event >= kNumMaxEvents`). -/
def toUInt32Val (x : Int) : Int := x % (2 ^ 32)

/-- Truncation of an integer to `int32_t` (as in storing
`getTimeSecs() - ab_trigger_time_[event]` into the `int32_t` field
`duration`). -/
def toInt32Val (x : Int) : Int := (x + 2 ^ 31) % (2 ^ 32) - 2 ^ 31

/-- `BatteryFGReporter::reportFGEvent`.  `st` is the array
`ab_trigger_time_[kNumMaxEvents]` (unsigned-int values), `now` the result
of `getTimeSecs()`.  Returns the updated trigger-time array and the
reported atom payload, or `none` when the function returns early. -/
def reportFGEvent (st : List Int) (now : Int) (data : BatteryFGPipeline) :
    List Int × Option BatteryFGPipeline :=
  if toUInt32Val data.event ≥ (kNumMaxEvents : Int) then
    (st, none)
  else
    let idx := data.event.toNat
    let t := st.getD idx 0
    if data.state = 1 ∧ t = 0 then
      (st.set idx (toUInt32Val now), some { data with state := data.state + 1 })
    else
      (st.set idx 0,
        some { data with duration := toInt32Val (now - t), state := data.state + 1 })

/-- C9: `reportFGEvent` returns early — reporting no atom and leaving the
trigger-time array `ab_trigger_time_` untouched — whenever the `int32_t`
event index is `>= kNumMaxEvents` (8) under the C++ signed-to-unsigned
comparison, which also rejects all negative events; consequently any call
that does report an atom has an event index in `0..7`. -/
theorem batteryFG_event_guard :
    (∀ (st : List Int) (now : Int) (data : BatteryFGPipeline),
      -(2 ^ 31) ≤ data.event → data.event < 2 ^ 31 →
      ((kNumMaxEvents : Int) ≤ data.event ∨ data.event < 0) →
      reportFGEvent st now data = (st, none)) ∧
    (∀ (st st' : List Int) (now : Int) (data out : BatteryFGPipeline),
      -(2 ^ 31) ≤ data.event → data.event < 2 ^ 31 →
      reportFGEvent st now data = (st', some out) →
      0 ≤ data.event ∧ data.event < (kNumMaxEvents : Int)) := by
  have hk : (kNumMaxEvents : Int) = 8 := rfl
  constructor
  · intro st now data h1 h2 h3
    have hg : toUInt32Val data.event ≥ (kNumMaxEvents : Int) := by
      simp only [toUInt32Val, hk, show (2 : Int) ^ 32 = 4294967296 from by norm_num]
      omega
    rw [reportFGEvent, if_pos hg]
  · intro st st' now data out h1 h2 heq
    by_cases hg : toUInt32Val data.event ≥ (kNumMaxEvents : Int)
    · rw [reportFGEvent, if_pos hg] at heq
      simp at heq
    · simp only [toUInt32Val, hk, ge_iff_le, not_le,
        show (2 : Int) ^ 32 = 4294967296 from by norm_num] at hg
      omega

/-- C9 witness: event 9 and event −1 are rejected with the trigger times
untouched, while a concrete call with event 3 reports and hence lands in
`0..7`. -/
theorem batteryFG_event_guard_wit :
    (reportFGEvent [0, 0, 0, 0, 0, 0, 0, 0] 100 ⟨9, 1, 0⟩ =
        ([0, 0, 0, 0, 0, 0, 0, 0], none) ∧
      reportFGEvent [0, 0, 0, 0, 0, 0, 0, 0] 100 ⟨-1, 1, 0⟩ =
        ([0, 0, 0, 0, 0, 0, 0, 0], none)) ∧
    (0 ≤ (3 : Int) ∧ (3 : Int) < (kNumMaxEvents : Int)) :=
  ⟨⟨batteryFG_event_guard.1 _ 100 ⟨9, 1, 0⟩ (by decide) (by decide)
        (Or.inl (by decide)),
      batteryFG_event_guard.1 _ 100 ⟨-1, 1, 0⟩ (by decide) (by decide)
        (Or.inr (by decide))⟩,
    batteryFG_event_guard.2 [0, 0, 0, 0, 0, 0, 0, 0] [0, 0, 0, 100, 0, 0, 0, 0]
      100 ⟨3, 1, 0⟩ ⟨3, 2, 0⟩ (by decide) (by decide) (by decide)⟩

end PixelHal

namespace PixelHal

/-! ## BatteryEEPROMReporter::checkAndReport (pixelstats/BatteryEEPROMReporter.cpp)

The history file is modelled as the list of already-parsed per-slot sscanf
results (`"%4hx%4hx%x %x %x %x"` → `tempco`, `rcomp0`, `data[0..3]`); file
I/O and string parsing are outside the model.  `report_time_` is threaded
explicitly, and a reported `BatteryHistory` atom is recorded together with
its slot index `i` instead of being sent to the stats client. -/

/-- `const int kSecondsPerMonth = 60 * 60 * 24 * 30`. -/
def kSecondsPerMonth : Int := 60 * 60 * 24 * 30

/-- One history slot as filled in by sscanf: `uint16_t` `tempco`/`rcomp0`
and `unsigned int data[4]`. -/
structure BatteryHistoryRawInput where
  tempco : Nat
  rcomp0 : Nat
  data0 : Nat
  data1 : Nat
  data2 : Nat
  data3 : Nat
deriving DecidableEq, Repr

/-- The fields of `struct BatteryHistory` filled in by the decode block. -/
structure BatteryHistory where
  tempco : Nat
  rcomp0 : Nat
  timer_h : Int
  max_temp : Int
  min_temp : Int
  min_ibatt : Int
  max_ibatt : Int
  min_vbatt : Int
  max_vbatt : Int
  batt_soc : Int
  msoc : Int
  full_cap : Int
  full_rep : Int
  cycle_cnt : Int
deriving DecidableEq, Repr

/-- `uint64_t tmp = (int64_t)data[3] << 48 | (int64_t)data[2] << 32 |
(int64_t)data[1] << 16 | data[0]` — the shifted words are or-ed and the
result is taken as `uint64_t` (the `data[i]` are `unsigned int`, reduced
mod 2^32 here since sscanf can only have stored such values). -/
def packedValue (r : BatteryHistoryRawInput) : Nat :=
  ((r.data3 % 2 ^ 32) <<< 48 ||| (r.data2 % 2 ^ 32) <<< 32 |||
    (r.data1 % 2 ^ 32) <<< 16 ||| r.data0 % 2 ^ 32) % 2 ^ 64

/-- The bit-unpacking and unit-mapping block of `checkAndReport` for slot
`i`.  Every unpacked field is masked to at most 10 bits, so the C++ casts
`(uint8_t)`, `(int8_t)`, `(int16_t)`, `(uint16_t)` on them are the
identity; C++ `/ 1000` on nonnegative `int` is `Int.tdiv`. -/
def decodeHistory (sparse_index_count i : Int) (r : BatteryHistoryRawInput) :
    BatteryHistory :=
  let tmp := packedValue r
  let timer_h := tmp &&& 0xFF
  let t1 := tmp >>> 8
  let fullcapnom := t1 &&& 0x3FF
  let t2 := t1 >>> 10
  let fullcaprep := t2 &&& 0x3FF
  let t3 := t2 >>> 10
  let mixsoc := t3 &&& 0x3F
  let t4 := t3 >>> 6
  let vfsoc := t4 &&& 0x3F
  let t5 := t4 >>> 6
  let maxvolt := t5 &&& 0xF
  let t6 := t5 >>> 4
  let minvolt := t6 &&& 0xF
  let t7 := t6 >>> 4
  let maxtemp := t7 &&& 0xF
  let t8 := t7 >>> 4
  let mintemp := t8 &&& 0xF
  let t9 := t8 >>> 4
  let maxchgcurr := t9 &&& 0xF
  let t10 := t9 >>> 4
  let maxdischgcurr := t10 &&& 0xF
  { tempco := r.tempco
    rcomp0 := r.rcomp0
    timer_h := (timer_h : Int) * 5
    max_temp := (maxtemp : Int) * 3 + 22
    min_temp := (mintemp : Int) * 3 - 20
    min_ibatt := (maxchgcurr : Int) * 500 * (-1)
    max_ibatt := (maxdischgcurr : Int) * 500
    min_vbatt := (minvolt : Int) * 10 + 2500
    max_vbatt := (maxvolt : Int) * 20 + 4200
    batt_soc := (vfsoc : Int) * 2
    msoc := (mixsoc : Int) * 2
    full_cap := ((fullcaprep : Int) * 125).tdiv 1000
    full_rep := ((fullcapnom : Int) * 125).tdiv 1000
    cycle_cnt := if i < sparse_index_count then (i + 1) * 20
      else (i + sparse_index_count + 1) * 10 }

/-- The `for (i = 0; i < BATT_HIST_NUM_MAX; i++)` loop body of
`checkAndReport`: skip on the `0xFFFF`/`0xFFFF` sentinel, skip on a
non-positive packed value, otherwise report and set
`report_time_ = getTimeSecs()` (the call's time `now`).  Returns the final
`report_time_` and the `(slot index, atom)` pairs reported. -/
def eepromLoop (sparse_index_count now : Int) :
    Int → Int → List BatteryHistoryRawInput → Int × List (Int × BatteryHistory)
  | _, rt, [] => (rt, [])
  | i, rt, r :: rest =>
    if r.tempco = 0xFFFF ∧ r.rcomp0 = 0xFFFF then
      eepromLoop sparse_index_count now (i + 1) rt rest
    else if packedValue r ≤ 0 then
      eepromLoop sparse_index_count now (i + 1) rt rest
    else
      let out := eepromLoop sparse_index_count now (i + 1) now rest
      (out.1, (i, decodeHistory sparse_index_count i r) :: out.2)

/-- `BatteryEEPROMReporter::checkAndReport` after a successful file read:
the monthly throttle gate, then the history loop from slot 0.  `rt` is the
incoming `report_time_`. -/
def checkAndReport (now rt sparse_index_count : Int)
    (records : List BatteryHistoryRawInput) : Int × List (Int × BatteryHistory) :=
  if rt ≠ 0 ∧ now - rt < kSecondsPerMonth then (rt, [])
  else eepromLoop sparse_index_count now 0 rt records

theorem eepromLoop_indexes_ge (sic now : Int)
    (l : List BatteryHistoryRawInput) :
    ∀ (i rt : Int) (p : Int × BatteryHistory),
      p ∈ (eepromLoop sic now i rt l).2 → i ≤ p.1 := by
  induction l with
  | nil =>
    intro i rt p hp
    simp [eepromLoop] at hp
  | cons r rest ih =>
    intro i rt p hp
    simp only [eepromLoop] at hp
    split at hp
    · have := ih (i + 1) rt p hp
      omega
    · split at hp
      · have := ih (i + 1) rt p hp
        omega
      · rcases List.mem_cons.1 hp with h | h
        · rw [h]
        · have := ih (i + 1) now p h
          omega

theorem eepromLoop_sentinel_not_reported (sic now : Int) :
    ∀ (l : List BatteryHistoryRawInput) (i rt : Int) (j : Nat)
      (h : j < l.length), l[j].tempco = 0xFFFF → l[j].rcomp0 = 0xFFFF →
      (i + (j : Int)) ∉ (eepromLoop sic now i rt l).2.map Prod.fst := by
  intro l
  induction l with
  | nil =>
    intro i rt j h
    exact absurd h (by simp)
  | cons r rest ih =>
    intro i rt j h h1 h2
    cases j with
    | zero =>
      simp only [List.getElem_cons_zero] at h1 h2
      simp only [eepromLoop, if_pos (And.intro h1 h2)]
      intro hmem
      rcases List.mem_map.1 hmem with ⟨p, hp, hpi⟩
      have hge := eepromLoop_indexes_ge sic now rest (i + 1) rt p hp
      omega
    | succ k =>
      simp only [List.getElem_cons_succ] at h1 h2
      have hk : k < rest.length := by
        simpa using Nat.lt_of_succ_lt_succ h
      have hcast : i + ((k + 1 : Nat) : Int) = (i + 1) + (k : Int) := by
        push_cast
        ring
      simp only [eepromLoop]
      split
      · rw [hcast]
        exact ih (i + 1) rt k hk h1 h2
      · split
        · rw [hcast]
          exact ih (i + 1) rt k hk h1 h2
        · simp only [List.map_cons, List.mem_cons]
          intro hmem
          rcases hmem with hmem | hmem
          · omega
          · rw [hcast] at hmem
            exact ih (i + 1) now k hk h1 h2 hmem

/-- C7: in `checkAndReport`, a history record whose `tempco` and `rcomp0`
both decode to the sentinel `0xFFFF` is skipped — the loop continues with
the next slot unchanged — and consequently no atom is ever reported for
that record's slot index. -/
theorem eeprom_sentinel_skip :
    (∀ (sic now i rt : Int) (r : BatteryHistoryRawInput)
        (rest : List BatteryHistoryRawInput),
      r.tempco = 0xFFFF → r.rcomp0 = 0xFFFF →
      eepromLoop sic now i rt (r :: rest) = eepromLoop sic now (i + 1) rt rest) ∧
    (∀ (now rt sic : Int) (records : List BatteryHistoryRawInput) (j : Nat)
        (h : j < records.length),
      records[j].tempco = 0xFFFF → records[j].rcomp0 = 0xFFFF →
      ((j : Nat) : Int) ∉ (checkAndReport now rt sic records).2.map Prod.fst) := by
  constructor
  · intro sic now i rt r rest h1 h2
    simp only [eepromLoop, if_pos (And.intro h1 h2)]
  · intro now rt sic records j h h1 h2
    rw [checkAndReport]
    split
    · simp
    · have := eepromLoop_sentinel_not_reported sic now records 0 rt j h h1 h2
      simpa using this

/-- C7 witness: with a concrete sentinel slot 0 followed by a reportable
slot 1, the loop-continuation equation holds and slot 0 is not among the
reported indexes. -/
theorem eeprom_sentinel_skip_wit :
    (eepromLoop 0 100 0 7
        [⟨0xFFFF, 0xFFFF, 1, 2, 3, 4⟩, ⟨0x1234, 0x5678, 5, 0, 0, 0⟩] =
      eepromLoop 0 100 1 7 [⟨0x1234, 0x5678, 5, 0, 0, 0⟩]) ∧
    (((0 : Nat) : Int) ∉ (checkAndReport 100 0 0
        [⟨0xFFFF, 0xFFFF, 1, 2, 3, 4⟩, ⟨0x1234, 0x5678, 5, 0, 0, 0⟩]).2.map
          Prod.fst) :=
  ⟨eeprom_sentinel_skip.1 0 100 0 7 ⟨0xFFFF, 0xFFFF, 1, 2, 3, 4⟩
      [⟨0x1234, 0x5678, 5, 0, 0, 0⟩] rfl rfl,
    eeprom_sentinel_skip.2 100 0 0
      [⟨0xFFFF, 0xFFFF, 1, 2, 3, 4⟩, ⟨0x1234, 0x5678, 5, 0, 0, 0⟩] 0
      (by decide) rfl rfl⟩

theorem eepromLoop_rt_spec (sic now : Int) :
    ∀ (l : List BatteryHistoryRawInput) (i rt : Int),
      ((eepromLoop sic now i rt l).2 = [] → (eepromLoop sic now i rt l).1 = rt) ∧
      ((eepromLoop sic now i rt l).2 ≠ [] → (eepromLoop sic now i rt l).1 = now) := by
  intro l
  induction l with
  | nil =>
    intro i rt
    exact ⟨fun _ => rfl, fun hne => absurd rfl hne⟩
  | cons r rest ih =>
    intro i rt
    simp only [eepromLoop]
    split
    · exact ih (i + 1) rt
    · split
      · exact ih (i + 1) rt
      · constructor
        · intro hmem
          simp at hmem
        · intro hne
          rcases Classical.em ((eepromLoop sic now (i + 1) now rest).2 = []) with
            he | he
          · exact (ih (i + 1) now).1 he
          · exact (ih (i + 1) now).2 he

/-- C10: `checkAndReport` advances the monthly-throttle watermark
`report_time_` only when a record is actually reported: if every record is
skipped (or the call is throttled) the watermark is returned unchanged,
and if any record is reported it becomes the call's current time. -/
theorem eeprom_report_time_watermark (now rt sic : Int)
    (records : List BatteryHistoryRawInput) :
    ((checkAndReport now rt sic records).2 = [] →
      (checkAndReport now rt sic records).1 = rt) ∧
    ((checkAndReport now rt sic records).2 ≠ [] →
      (checkAndReport now rt sic records).1 = now) := by
  rw [checkAndReport]
  split
  · exact ⟨fun _ => rfl, fun hne => absurd rfl hne⟩
  · exact eepromLoop_rt_spec sic now records 0 rt

/-- C10 witness: a call where both records are skipped (sentinel pair,
then zero packed value) leaves the watermark at its incoming value 0,
while a call that reports sets it to the call time. -/
theorem eeprom_report_time_watermark_wit :
    (checkAndReport 100 0 0
        [⟨0xFFFF, 0xFFFF, 1, 2, 3, 4⟩, ⟨0x1234, 0x5678, 0, 0, 0, 0⟩]).1 = 0 ∧
    (checkAndReport 100 0 0 [⟨0x1234, 0x5678, 5, 0, 0, 0⟩]).1 = 100 :=
  ⟨(eeprom_report_time_watermark 100 0 0
        [⟨0xFFFF, 0xFFFF, 1, 2, 3, 4⟩, ⟨0x1234, 0x5678, 0, 0, 0, 0⟩]).1
      (by decide),
    (eeprom_report_time_watermark 100 0 0 [⟨0x1234, 0x5678, 5, 0, 0, 0⟩]).2
      (by decide)⟩

end PixelHal
